import Mathlib

/-!
Shallow embedding of the cabal-play wallet tracker core
(src/services/solanaApi.js, the DataCache half of that file,
src/components/HoldingsTable.jsx and the addWallets operation of
fetch-holders.js), together with proofs about the embedded code.

Modelling conventions:
- JavaScript numbers carrying token or SOL amounts are modelled as
  rationals; integer raw amounts and lamports as Int; millisecond
  timestamps as Int (ISO strings are ordered exactly as their epoch
  values, so an ISO timestamp is modelled by its epoch milliseconds).
- Absent or undefined JS fields are modelled as Option; the JS idiom
  x || d on strings and numbers is modelled by dedicated helpers that
  take falsiness of the empty string and of 0 into account.
- JS Map objects are modelled by insertion ordered association lists
  (Map.set keeps the original position of an existing key and appends
  a new key at the end), and plain objects used as keyed stores are
  modelled as functions into Option.
- Network effects are modelled by explicit oracles: a list of
  signature pages for getSignaturesForAddress consumed in call order
  and a function for getParsedTransaction, where none models a failed
  detail fetch.
-/

/-- Model of the JS String.prototype.toLowerCase. -/
def jsLower (s : String) : String := String.mk (s.data.map Char.toLower)

/-- Model of the JS String.prototype.trim. -/
def jsTrim (s : String) : String :=
  String.mk (((s.data.dropWhile Char.isWhitespace).reverse.dropWhile Char.isWhitespace).reverse)

/-- JS truthiness of an optional string: undefined and the empty string are falsy. -/
def truthyStr : Option String → Bool
  | none => false
  | some s => s ≠ ""

/-- JS truthiness of an optional integer: undefined and 0 are falsy. -/
def truthyInt : Option Int → Bool
  | none => false
  | some n => n ≠ 0

/-- The JS idiom v || 9 applied to the optional decimals field: undefined and 0 give 9. -/
def jsDecimals : Option Nat → Nat
  | none => 9
  | some d => if d = 0 then 9 else d

/-- The base58 alphabet used by the address format check in solanaApi.js. -/
def base58Chars : List Char :=
  "123456789ABCDEFGHJKLMNPQRSTUVWXYZabcdefghijkmnopqrstuvwxyz".data

/-- Model of isValidAddress from solanaApi.js: trimmed, 32 to 44 base58 characters. -/
def isValidAddress (address : String) : Bool :=
  let t := jsTrim address
  32 ≤ t.data.length ∧ t.data.length ≤ 44 ∧ t.data.all (fun c => base58Chars.contains c)

/-- Lookup in an insertion ordered association list, modelling Map.prototype.get. -/
def getAssoc {β : Type} (m : List (String × β)) (k : String) : Option β :=
  (m.find? (fun p => p.1 = k)).map (fun p => p.2)

/-- Update in an insertion ordered association list, modelling Map.prototype.set:
an existing key keeps its position, a new key is appended at the end. -/
def setAssoc {β : Type} (m : List (String × β)) (k : String) (v : β) : List (String × β) :=
  if m.any (fun p => p.1 = k) then
    m.map (fun p => if p.1 = k then (k, v) else p)
  else
    m ++ [(k, v)]

/-! ## Transfer classifier, parseTokenTransfer of solanaApi.js -/

/-- One entry of preTokenBalances or postTokenBalances of a parsed transaction. -/
structure TokenBalance where
  mint : Option String
  owner : Option String
  amount : Option Int
  decimals : Option Nat

/-- The pieces of a parsed Solana transaction read by parseTokenTransfer. -/
structure RawTx where
  preTokenBalances : List TokenBalance
  postTokenBalances : List TokenBalance
  accountKeys : List String
  preBalances : List Int
  postBalances : List Int

/-- Per owner entry of the walletChanges map built by parseTokenTransfer. -/
structure WalletChange where
  pre : Int
  post : Int
  decimals : Nat
  address : String

/-- Mutable scan state of parseTokenTransfer while it walks the two balance tables. -/
structure BalScanState where
  walletChanges : List (String × WalletChange)
  preAmount : Int
  postAmount : Int
  decimals : Nat
  foundWallet : Bool
  foundMint : Bool

def initialBalScanState : BalScanState :=
  { walletChanges := [], preAmount := 0, postAmount := 0, decimals := 9
    foundWallet := false, foundMint := false }

/-- Guard shared by both balance scans: the entry must carry a truthy mint matching
the tracked mint case-insensitively and a truthy owner. -/
def balRelevant (mintNorm : String) (bal : TokenBalance) : Bool :=
  truthyStr bal.mint ∧ jsLower (bal.mint.getD "") = jsLower mintNorm ∧ truthyStr bal.owner

/-- One step of the preTokenBalances loop of parseTokenTransfer. -/
def scanPreStep (mintNorm walletNorm : String) (s : BalScanState) (bal : TokenBalance) :
    BalScanState :=
  if balRelevant mintNorm bal then
    let owner := bal.owner.getD ""
    let ownerKey := jsLower owner
    let amount : Int := bal.amount.getD 0
    let prevPost : Int := match getAssoc s.walletChanges ownerKey with
      | some c => c.post
      | none => 0
    let wc : WalletChange :=
      { pre := amount, post := prevPost, decimals := jsDecimals bal.decimals, address := owner }
    let s' := { s with foundMint := true, walletChanges := setAssoc s.walletChanges ownerKey wc }
    if jsLower owner = jsLower walletNorm then
      { s' with preAmount := amount, decimals := jsDecimals bal.decimals, foundWallet := true }
    else s'
  else s

/-- One step of the postTokenBalances loop of parseTokenTransfer. -/
def scanPostStep (mintNorm walletNorm : String) (s : BalScanState) (bal : TokenBalance) :
    BalScanState :=
  if balRelevant mintNorm bal then
    let owner := bal.owner.getD ""
    let ownerKey := jsLower owner
    let amount : Int := bal.amount.getD 0
    let existing : WalletChange := (getAssoc s.walletChanges ownerKey).getD
      { pre := 0, post := 0, decimals := 9, address := owner }
    let wc : WalletChange := { existing with post := amount }
    let s' := { s with foundMint := true, walletChanges := setAssoc s.walletChanges ownerKey wc }
    if jsLower owner = jsLower walletNorm then
      { s' with postAmount := amount, decimals := jsDecimals bal.decimals, foundWallet := true }
    else s'
  else s

/-- Both balance table scans of parseTokenTransfer, in source order. -/
def balanceScan (tx : RawTx) (walletAddress tokenMint : String) : BalScanState :=
  let mintNorm := jsTrim tokenMint
  let walletNorm := jsTrim walletAddress
  tx.postTokenBalances.foldl (scanPostStep mintNorm walletNorm)
    (tx.preTokenBalances.foldl (scanPreStep mintNorm walletNorm) initialBalScanState)

/-- The token balance delta of the watched wallet in one raw transaction. -/
def tokenDeltaOf (tx : RawTx) (walletAddress tokenMint : String) : Int :=
  (balanceScan tx walletAddress tokenMint).postAmount -
    (balanceScan tx walletAddress tokenMint).preAmount

/-- Native balance change of the watched wallet in lamports: locate the first
account key equal to the wallet case-insensitively and subtract pre from post. -/
def solChangeLamports (tx : RawTx) (walletNorm : String) : Int :=
  match tx.accountKeys.findIdx? (fun k => k ≠ "" ∧ jsLower k = jsLower walletNorm) with
  | none => 0
  | some i => tx.postBalances.getD i 0 - tx.preBalances.getD i 0

/-- SOL delta of the watched wallet, lamports divided by ten to the ninth. -/
def solDeltaOf (tx : RawTx) (walletAddress : String) : ℚ :=
  (solChangeLamports tx (jsTrim walletAddress) : ℚ) / 1000000000

/-- Classified transfer payload returned by parseTokenTransfer. -/
structure TokenTransferRes where
  type : String
  amount : ℚ
  rawAmount : Int
  decimals : Nat
  toWallet : Option String
  fromWallet : Option String
  solChange : ℚ

/-- First counterparty in walletChanges insertion order, other than the wallet,
whose asset balance moved in the given direction. -/
def findCounterparty (m : List (String × WalletChange)) (walletKey : String)
    (increased : Bool) : Option String :=
  (m.find? (fun p =>
    p.1 ≠ walletKey ∧
      (if increased then p.2.post - p.2.pre > 0 else p.2.post - p.2.pre < 0))).map
    (fun p => p.2.address)

/-- Model of parseTokenTransfer from solanaApi.js. -/
def parseTokenTransfer (tx : RawTx) (walletAddress tokenMint : String) :
    Option TokenTransferRes :=
  if tx.preTokenBalances.length = 0 ∧ tx.postTokenBalances.length = 0 then none
  else
    let walletNorm := jsTrim walletAddress
    let s := balanceScan tx walletAddress tokenMint
    if ¬ s.foundMint then none
    else
      let tokenChange : Int := s.postAmount - s.preAmount
      if tokenChange = 0 then none
      else
        let solChangeInSol : ℚ := (solChangeLamports tx walletNorm : ℚ) / 1000000000
        if tokenChange < 0 then
          some
            { type := if (1 : ℚ) / 1000 < solChangeInSol then "SELL" else "TRANSFER_OUT"
              amount := (tokenChange.natAbs : ℚ) / (10 : ℚ) ^ s.decimals
              rawAmount := (tokenChange.natAbs : Int)
              decimals := s.decimals
              toWallet := findCounterparty s.walletChanges (jsLower walletNorm) true
              fromWallet := none
              solChange := solChangeInSol }
        else
          some
            { type := if solChangeInSol < -((1 : ℚ) / 100) then "BUY" else "TRANSFER_IN"
              amount := (tokenChange.natAbs : ℚ) / (10 : ℚ) ^ s.decimals
              rawAmount := (tokenChange.natAbs : Int)
              decimals := s.decimals
              toWallet := none
              fromWallet := findCounterparty s.walletChanges (jsLower walletNorm) false
              solChange := solChangeInSol }

/-! ## Transaction history fetch, getWalletTransactions of solanaApi.js -/

/-- One classified transfer as built by getWalletTransactions: the signature
entry data plus the parseTokenTransfer payload. Timestamps are epoch ms. -/
structure Transfer where
  signature : String
  timestamp : Option Int
  walletAddress : String
  type : String
  amount : ℚ
  rawAmount : Int
  decimals : Nat
  toWallet : Option String
  fromWallet : Option String
  solChange : ℚ

/-- One entry returned by getSignaturesForAddress; blockTime in seconds, none
models a missing block time. -/
structure SigInfo where
  signature : String
  blockTime : Option Int

/-- Parameters of one getWalletTransactions call together with the remote
oracles: the signature pages consumed in call order and the parsed
transaction details, where none models a failed detail fetch. -/
structure FetchConfig where
  walletAddress : String
  tokenMint : String
  targetCount : Nat
  maxPages : Nat
  deepFetch : Bool
  sinceTimestamp : Option Int
  knownSignatures : Option (List String)
  getTx : String → Option RawTx

/-- Accumulator of getWalletTransactions: collected transfers plus the list of
signatures whose details were requested from the provider. -/
structure FetchAcc where
  transactions : List Transfer
  fetched : List String

/-- Split a list into chunks of n, modelling the slice(i, i + n) batching loop. -/
def chunksOf {α : Type} (n : Nat) : List α → List (List α)
  | [] => []
  | x :: xs => (x :: xs.take (n - 1)) :: chunksOf n (xs.drop (n - 1))
termination_by l => l.length
decreasing_by simp [List.length_drop]; omega

/-- The transfer record pushed for one matching transaction: the JS code turns a
truthy blockTime into an ISO timestamp and a falsy one into null. -/
def mkTransfer (cfg : FetchConfig) (sig : SigInfo) (tt : TokenTransferRes) : Transfer :=
  { signature := sig.signature
    timestamp := if truthyInt sig.blockTime then sig.blockTime.map (· * 1000) else none
    walletAddress := cfg.walletAddress
    type := tt.type
    amount := tt.amount
    rawAmount := tt.rawAmount
    decimals := tt.decimals
    toWallet := tt.toWallet
    fromWallet := tt.fromWallet
    solChange := tt.solChange }

/-- Inner results loop over one fetched batch: parse each detail, push matching
transfers, and stop the whole call once targetCount is reached when not deep
fetching. The Bool is true when the early return fired. -/
def processResults (cfg : FetchConfig) (acc : FetchAcc) :
    List SigInfo → FetchAcc × Bool
  | [] => (acc, false)
  | sig :: rest =>
    match cfg.getTx sig.signature with
    | none => processResults cfg acc rest
    | some tx =>
      match parseTokenTransfer tx cfg.walletAddress cfg.tokenMint with
      | none => processResults cfg acc rest
      | some tt =>
        let acc' := { acc with transactions := acc.transactions ++ [mkTransfer cfg sig tt] }
        if ¬ cfg.deepFetch ∧ cfg.targetCount ≤ acc'.transactions.length then (acc', true)
        else processResults cfg acc' rest

/-- The known signature filter applied to one sub-batch before its fetches. -/
def filteredBatchOf (cfg : FetchConfig) (chunk : List SigInfo) : List SigInfo :=
  match cfg.knownSignatures with
  | some known => chunk.filter (fun sig => ¬ known.contains sig.signature)
  | none => chunk

/-- Loop over the parallel sub-batches of one page: filter out already known
signatures, record the detail fetches, and process the results. -/
def processChunks (cfg : FetchConfig) (acc : FetchAcc) :
    List (List SigInfo) → FetchAcc × Bool
  | [] => (acc, false)
  | chunk :: rest =>
    let filteredBatch := filteredBatchOf cfg chunk
    if filteredBatch.length = 0 then processChunks cfg acc rest
    else
      let acc₁ := { acc with fetched := acc.fetched ++ filteredBatch.map (·.signature) }
      match processResults cfg acc₁ filteredBatch with
      | (acc₂, true) => (acc₂, true)
      | (acc₂, false) => processChunks cfg acc₂ rest

/-- Outcome of the incremental cutoff check at the top of a page. -/
inductive SinceCheck where
  | stop : SinceCheck
  | lastBatch : List SigInfo → SinceCheck
  | keepGoing : List SigInfo → SinceCheck

/-- The incremental cutoff: when the oldest signature of the page is older than
the since bound, keep only the newer signatures, and stop paging after them;
when none remain, stop at once. -/
def sinceFilter (cfg : FetchConfig) (page : List SigInfo) : SinceCheck :=
  match cfg.sinceTimestamp with
  | none => SinceCheck.keepGoing page
  | some since =>
    let oldest := (page.getLast?.map (·.blockTime)).getD none
    if truthyInt oldest ∧ (oldest.getD 0) * 1000 < since then
      let newSigs := page.filter
        (fun sig => truthyInt sig.blockTime ∧ since ≤ (sig.blockTime.getD 0) * 1000)
      if newSigs.length = 0 then SinceCheck.stop
      else SinceCheck.lastBatch newSigs
    else SinceCheck.keepGoing page

/-- Parallel batch size of the transaction detail fetches. -/
def PARALLEL_BATCH_SIZE : Nat := 15

/-- The page loop of getWalletTransactions. The page list models successive
getSignaturesForAddress answers; an exhausted list models an empty answer. -/
def pagesLoop (cfg : FetchConfig) : List (List SigInfo) → Nat → FetchAcc → FetchAcc
  | [], _, acc => acc
  | page :: rest, pagesSearched, acc =>
    if ¬ (pagesSearched < cfg.maxPages ∨ cfg.deepFetch) then acc
    else if page.length = 0 then acc
    else
      let pagesSearched' := pagesSearched + 1
      match sinceFilter cfg page with
      | SinceCheck.stop => acc
      | SinceCheck.lastBatch procSigs =>
        (processChunks cfg acc (chunksOf PARALLEL_BATCH_SIZE procSigs)).1
      | SinceCheck.keepGoing procSigs =>
        match processChunks cfg acc (chunksOf PARALLEL_BATCH_SIZE procSigs) with
        | (acc', true) => acc'
        | (acc', false) =>
          if cfg.deepFetch ∧ 15 ≤ pagesSearched' then acc'
          else if ¬ cfg.deepFetch ∧ cfg.maxPages ≤ pagesSearched' then acc'
          else pagesLoop cfg rest pagesSearched' acc'

/-- getWalletTransactions including the instrumented list of detail fetches. -/
def getWalletTransactionsAux (cfg : FetchConfig) (pages : List (List SigInfo)) : FetchAcc :=
  if ¬ (isValidAddress cfg.walletAddress ∧ isValidAddress cfg.tokenMint) then
    { transactions := [], fetched := [] }
  else pagesLoop cfg pages 0 { transactions := [], fetched := [] }

/-- Model of getWalletTransactions from solanaApi.js: the returned transfer list. -/
def getWalletTransactions (cfg : FetchConfig) (pages : List (List SigInfo)) : List Transfer :=
  (getWalletTransactionsAux cfg pages).transactions

/-! ## DataCache: transaction cache merge, cacheTransactions -/

/-- Per token record of the transaction cache. -/
structure TxCacheEntry where
  transactions : List Transfer
  lastSync : Int
  newestSignature : Option String
  oldestSignature : Option String

/-- The whole transaction cache store, keyed by token mint. -/
def TxCache : Type := String → Option TxCacheEntry

/-- Timestamp value used by the merge sort comparator: new Date(null) is epoch 0. -/
def tsVal (t : Option Int) : Int := t.getD 0

/-- The JS idiom s || null on an optional signature: an empty string becomes null. -/
def strOrNull : Option String → Option String
  | some "" => none
  | x => x

/-- Result of one cacheTransactions call: the updated store plus the reported
added and total counts. -/
structure TxMergeResult where
  cache : TxCache
  added : Nat
  total : Nat

/-- The transactions currently cached under a token key. -/
def existingOf (cache : TxCache) (tokenMint : String) : List Transfer :=
  ((cache tokenMint).map (·.transactions)).getD []

/-- The incoming transfers whose signature is not among the cached signatures. -/
def uniqueNewOf (cache : TxCache) (tokenMint : String)
    (newTransactions : List Transfer) : List Transfer :=
  newTransactions.filter
    (fun tx => ¬ ((existingOf cache tokenMint).map (·.signature)).contains tx.signature)

/-- The merged transaction list: unseen transfers prepended to the cached ones,
then the whole list sorted by timestamp, newest first. -/
def mergedOf (cache : TxCache) (tokenMint : String)
    (newTransactions : List Transfer) : List Transfer :=
  (uniqueNewOf cache tokenMint newTransactions ++ existingOf cache tokenMint).mergeSort
    (fun a b => tsVal b.timestamp ≤ tsVal a.timestamp)

/-- Model of cacheTransactions from the DataCache half of solanaApi.js. -/
def cacheTransactions (cache : TxCache) (tokenMint : String)
    (newTransactions : List Transfer) (now : Int) : TxMergeResult :=
  let merged := mergedOf cache tokenMint newTransactions
  let entry : TxCacheEntry :=
    { transactions := merged
      lastSync := now
      newestSignature := strOrNull (merged.head?.map (·.signature))
      oldestSignature := strOrNull (merged.getLast?.map (·.signature)) }
  { cache := fun k => if k = tokenMint then some entry else cache k
    added := (uniqueNewOf cache tokenMint newTransactions).length
    total := merged.length }

/-! ## DataCache: balance cache merge, cacheWalletBalances -/

/-- One incoming per wallet balance record, as produced by batchGetBalances. -/
structure WalletBalanceRec where
  address : String
  name : String
  balance : Int
  decimals : Option Nat
  uiBalance : ℚ
  error : Option String
  lastUpdated : Int

/-- One stored balance cache entry: the spread of the incoming record plus the
fields computed at merge time. -/
structure BalanceEntry where
  info : WalletBalanceRec
  previousBalance : Option ℚ
  balanceHistory : List (ℚ × Int)
  firstSeen : Int
  lastUpdated : Int

/-- Per token record of the balance cache. -/
structure BalCacheEntry where
  wallets : List BalanceEntry
  lastSync : Int

/-- The whole balance cache store, keyed by token mint. -/
def BalCache : Type := String → Option BalCacheEntry

/-- JS slice(-9): the last nine elements, or the whole list when shorter. -/
def takeLast {α : Type} (n : Nat) (l : List α) : List α := l.drop (l.length - n)

/-- The merged entry for one incoming wallet record, given the entry currently
stored under that address. ISO timestamps are nonempty strings, hence truthy,
so prev.firstSeen || now is the stored firstSeen whenever an entry existed. -/
def mergeBalanceEntry (prev : Option BalanceEntry) (w : WalletBalanceRec) (now : Int) :
    BalanceEntry :=
  { info := w
    previousBalance := prev.map (·.info.uiBalance)
    balanceHistory :=
      takeLast 9 ((prev.map (·.balanceHistory)).getD []) ++ [(w.uiBalance, now)]
    firstSeen := (prev.map (·.firstSeen)).getD now
    lastUpdated := now }

/-- One step of the walletData.forEach loop: existingMap.set of the merged entry. -/
def balanceMergeStep (now : Int) (m : List (String × BalanceEntry)) (w : WalletBalanceRec) :
    List (String × BalanceEntry) :=
  setAssoc m w.address (mergeBalanceEntry (getAssoc m w.address) w now)

/-- The initial existingMap: new Map over the stored wallets keyed by address,
where a later duplicate key overwrites the value but keeps the first position. -/
def initialBalanceMap (existing : List BalanceEntry) : List (String × BalanceEntry) :=
  existing.foldl (fun m w => setAssoc m w.info.address w) []

/-- Result of one cacheWalletBalances call: the updated store plus the returned
wallet list. -/
structure BalMergeResult where
  cache : BalCache
  wallets : List BalanceEntry

/-- Model of cacheWalletBalances from the DataCache half of solanaApi.js. -/
def cacheWalletBalances (cache : BalCache) (tokenMint : String)
    (walletData : List WalletBalanceRec) (now : Int) : BalMergeResult :=
  let existing := ((cache tokenMint).map (·.wallets)).getD []
  let finalMap := walletData.foldl (balanceMergeStep now) (initialBalanceMap existing)
  let entry : BalCacheEntry := { wallets := finalMap.map (·.2), lastSync := now }
  { cache := fun k => if k = tokenMint then some entry else cache k
    wallets := entry.wallets }

/-! ## Batched balance fetch, batchGetBalances of solanaApi.js -/

/-- Outcome of one getAssetsByOwner call for one wallet against the Helius DAS
endpoint: the tracked token was found with a raw balance and decimals, it was
absent from the returned assets, or the request failed. -/
inductive DasResult where
  | found : Int → Nat → DasResult
  | notFound : DasResult
  | failure : String → DasResult

/-- A watched wallet record as passed to batchGetBalances. -/
structure WatchedWallet where
  id : String
  name : String
  address : String
  group : String

/-- The per wallet result record built by fetchBalancesBatchHelius: wallet
spread, id set to the address, balance data or a per wallet error field. -/
def heliusResult (now : Int) (fetch : String → DasResult) (w : WatchedWallet) :
    WalletBalanceRec :=
  match fetch w.address with
  | DasResult.found balance decimals =>
    { address := w.address, name := w.name, balance := balance
      decimals := some decimals
      uiBalance := (balance : ℚ) / (10 : ℚ) ^ decimals, error := none
      lastUpdated := now }
  | DasResult.notFound =>
    { address := w.address, name := w.name, balance := 0, decimals := some 9
      uiBalance := 0, error := none, lastUpdated := now }
  | DasResult.failure msg =>
    { address := w.address, name := w.name, balance := 0, decimals := none
      uiBalance := 0, error := some msg, lastUpdated := now }

/-- Model of fetchBalancesBatchHelius: a Promise.all over the batch. -/
def fetchBalancesBatchHelius (now : Int) (fetch : String → DasResult)
    (wallets : List WatchedWallet) : List WalletBalanceRec :=
  wallets.map (heliusResult now fetch)

/-- The batch loop of batchGetBalances: fixed size groups processed in order,
their results concatenated. The inter batch delay and the progress callback
are timing effects with no influence on the returned data. -/
def batchLoop (now : Int) (fetch : String → DasResult) (batchSize : Nat) :
    List WatchedWallet → List WalletBalanceRec
  | [] => []
  | w :: rest =>
    fetchBalancesBatchHelius now fetch ((w :: rest).take batchSize) ++
      batchLoop now fetch batchSize (rest.drop (batchSize - 1))
termination_by l => l.length
decreasing_by simp [List.length_drop]; omega

/-- Model of batchGetBalances on the Helius path: batch size 5 with an API key,
3 without. -/
def batchGetBalances (hasApiKey : Bool) (now : Int) (fetch : String → DasResult)
    (wallets : List WatchedWallet) : List WalletBalanceRec :=
  batchLoop now fetch (if hasApiKey then 5 else 3) wallets

/-! ## HoldingsTable: per wallet transaction processing and activity status -/

/-- One transaction as read by HoldingsTable from the cache; fields that the
component guards against being absent are Options. -/
structure UiTx where
  walletAddress : Option String
  type : String
  amount : Option ℚ
  timestamp : Option Int
  toWallet : Option String
  fromWallet : Option String

/-- One connectedWallets entry of a wallet in walletTransactionsMap. -/
structure ConnEntry where
  sent : ℚ
  received : ℚ
  name : Option String
  address : String
  isTracked : Option Bool

/-- One processed transaction pushed into walletTransactionsMap. -/
structure ProcTx where
  tx : UiTx
  category : String
  toWalletName : Option String
  fromWalletName : Option String

/-- Per wallet aggregate stored in walletTransactionsMap. -/
structure WalletData where
  transactions : List ProcTx
  totalBought : ℚ
  totalSold : ℚ
  totalTransferredOut : ℚ
  totalTransferredIn : ℚ
  connectedWallets : List (String × ConnEntry)

def emptyWalletData : WalletData :=
  { transactions := [], totalBought := 0, totalSold := 0, totalTransferredOut := 0
    totalTransferredIn := 0, connectedWallets := [] }

/-- The trackedAddresses map: lowercased address to display name. -/
def trackedAddressesOf (wallets : List WatchedWallet) : List (String × String) :=
  wallets.foldl (fun m w => setAssoc m (jsLower w.address) w.name) []

/-- Membership in trackedAddresses, modelling Map.prototype.has. -/
def hasKey {β : Type} (m : List (String × β)) (k : String) : Bool :=
  m.any (fun p => p.1 = k)

/-- The connectedWallets update of the TRANSFER_IN branch. -/
def connectInbound (tracked : List (String × String)) (d : WalletData) (tx : UiTx) :
    WalletData :=
  if truthyStr tx.fromWallet then
    let fromKey := jsLower (tx.fromWallet.getD "")
    if hasKey tracked fromKey then
      let existing := (getAssoc d.connectedWallets fromKey).getD
        { sent := 0, received := 0, name := none, address := "", isTracked := none }
      let updated := { existing with
        received := existing.received + (tx.amount.getD 0)
        name := getAssoc tracked fromKey
        address := tx.fromWallet.getD "" }
      { d with connectedWallets := setAssoc d.connectedWallets fromKey updated }
    else d
  else d

/-- The connectedWallets update of the TRANSFER_OUT branch. -/
def connectOutbound (tracked : List (String × String)) (d : WalletData) (tx : UiTx) :
    WalletData :=
  if truthyStr tx.toWallet then
    let toKey := jsLower (tx.toWallet.getD "")
    let existing := (getAssoc d.connectedWallets toKey).getD
      { sent := 0, received := 0, name := none, address := "", isTracked := none }
    let updated := { existing with
      sent := existing.sent + (tx.amount.getD 0)
      name := getAssoc tracked toKey
      address := tx.toWallet.getD ""
      isTracked := some (hasKey tracked toKey) }
    { d with connectedWallets := setAssoc d.connectedWallets toKey updated }
  else d

/-- The category assigned to one transaction by walletTransactionsMap, including
the legacy fallback for unrecognized type strings. -/
def categoryOf (tracked : List (String × String)) (tx : UiTx) : String :=
  if tx.type = "BUY" then "BUY"
  else if tx.type = "TRANSFER_IN" then "TRANSFER_IN"
  else if tx.type = "TRANSFER_OUT" then "TRANSFER_OUT"
  else if tx.type = "SELL" then "SELL"
  else if truthyStr tx.toWallet ∧ hasKey tracked (jsLower (tx.toWallet.getD "")) then
    "TRANSFER_OUT"
  else "SELL"

/-- The aggregate update of the walletTransactionsMap forEach body, before the
processed transaction is pushed. -/
def aggregateTx (tracked : List (String × String)) (d : WalletData) (tx : UiTx) :
    WalletData :=
  let amt := tx.amount.getD 0
  if tx.type = "BUY" then { d with totalBought := d.totalBought + amt }
  else if tx.type = "TRANSFER_IN" then
    connectInbound tracked
      { d with totalTransferredIn := d.totalTransferredIn + amt
               totalBought := d.totalBought + amt } tx
  else if tx.type = "TRANSFER_OUT" then
    connectOutbound tracked
      { d with totalTransferredOut := d.totalTransferredOut + amt } tx
  else if tx.type = "SELL" then { d with totalSold := d.totalSold + amt }
  else if truthyStr tx.toWallet ∧ hasKey tracked (jsLower (tx.toWallet.getD "")) then
    { d with totalTransferredOut := d.totalTransferredOut + amt }
  else { d with totalSold := d.totalSold + amt }

/-- The processed transaction record pushed at the end of the forEach body. -/
def mkProcTx (tracked : List (String × String)) (tx : UiTx) : ProcTx :=
  { tx := tx
    category := categoryOf tracked tx
    toWalletName := tx.toWallet.bind (fun t => getAssoc tracked (jsLower t))
    fromWalletName := tx.fromWallet.bind (fun t => getAssoc tracked (jsLower t)) }

/-- The whole forEach body for one transaction: aggregate update plus push. -/
def applyTx (tracked : List (String × String)) (d : WalletData) (tx : UiTx) : WalletData :=
  let d' := aggregateTx tracked d tx
  { d' with transactions := d'.transactions ++ [mkProcTx tracked tx] }

/-- The key of one transaction in walletTransactionsMap: the lowercased wallet
address, skipping transactions with a falsy one. -/
def keyOf (tx : UiTx) : Option String :=
  match tx.walletAddress with
  | none => none
  | some a => if jsLower a = "" then none else some (jsLower a)

/-- One forEach step of walletTransactionsMap over the keyed store. -/
def mapStep (tracked : List (String × String)) (m : String → Option WalletData)
    (tx : UiTx) : String → Option WalletData :=
  match keyOf tx with
  | none => m
  | some k => fun k' =>
    if k' = k then some (applyTx tracked ((m k).getD emptyWalletData) tx) else m k'

/-- Model of walletTransactionsMap from HoldingsTable.jsx. -/
def walletTransactionsMap (tracked : List (String × String)) (transactions : List UiTx) :
    String → Option WalletData :=
  transactions.foldl (mapStep tracked) (fun _ => none)

/-- The activity status labels of HoldingsTable.jsx. -/
inductive Status where
  | OUT | UNKNOWN | SELLING | SOLD | TRANSFERRED | RECEIVED | BUY | BOUGHT_MORE | HOLDING
deriving DecidableEq

def FIFTEEN_MINS_MS : Int := 15 * 60 * 1000

def TWENTY_FOUR_HOURS_MS : Int := 24 * 60 * 60 * 1000

/-- The single pass scan state of getActivityStatus. -/
structure ScanState where
  sellsIn15Mins : Bool
  sellsIn24Hours : Bool
  sellAmountIn24Hours : ℚ
  transfersOutIn24Hours : Bool
  transfersInIn24Hours : Bool
  buysIn24Hours : Bool
  totalBuys : Nat
  totalTransfersIn : Nat

def initialScanState : ScanState :=
  { sellsIn15Mins := false, sellsIn24Hours := false, sellAmountIn24Hours := 0
    transfersOutIn24Hours := false, transfersInIn24Hours := false, buysIn24Hours := false
    totalBuys := 0, totalTransfersIn := 0 }

/-- One iteration of the single pass loop of getActivityStatus. -/
def scanStep (now : Int) (s : ScanState) (p : ProcTx) : ScanState :=
  let s := if p.category = "BUY" then { s with totalBuys := s.totalBuys + 1 } else s
  let s := if p.category = "TRANSFER_IN" then
    { s with totalTransfersIn := s.totalTransfersIn + 1 } else s
  match p.tx.timestamp with
  | none => s
  | some t =>
    let txAge := now - t
    let s := if txAge ≤ FIFTEEN_MINS_MS ∧ p.category = "SELL" then
      { s with sellsIn15Mins := true } else s
    if txAge ≤ TWENTY_FOUR_HOURS_MS then
      if p.category = "SELL" then
        { s with sellsIn24Hours := true
                 sellAmountIn24Hours := s.sellAmountIn24Hours + (p.tx.amount.getD 0) }
      else if p.category = "TRANSFER_OUT" then { s with transfersOutIn24Hours := true }
      else if p.category = "TRANSFER_IN" then { s with transfersInIn24Hours := true }
      else if p.category = "BUY" then { s with buysIn24Hours := true }
      else s
    else s

/-- The single pass loop with its early break once sellsIn15Mins is set. -/
def scanLoop (now : Int) (s : ScanState) : List ProcTx → ScanState
  | [] => s
  | p :: rest =>
    let s' := scanStep now s p
    if s'.sellsIn15Mins then s' else scanLoop now s' rest

/-- The OUT guard of getActivityStatus: currentBalance less or equal zero or undefined. -/
def balanceIsOut (currentBalance : Option ℚ) : Bool :=
  match currentBalance with
  | none => true
  | some b => b ≤ 0

/-- Model of getActivityStatus from HoldingsTable.jsx. -/
def getActivityStatus (wallets : List WatchedWallet) (transactions : List UiTx)
    (now : Int) (walletAddress : String) (currentBalance : Option ℚ) : Status :=
  if balanceIsOut currentBalance then Status.OUT
  else
    let tracked := trackedAddressesOf wallets
    let m := walletTransactionsMap tracked transactions
    let walletStats := m (jsLower walletAddress)
    let walletTxs := (walletStats.map (·.transactions)).getD []
    if walletTxs.length = 0 then Status.UNKNOWN
    else
      let s := scanLoop now initialScanState walletTxs
      let totalAcquired : ℚ := (walletStats.map (·.totalBought)).getD 0
      let hasSignificantSell :=
        if 0 < totalAcquired then
          (1 : ℚ) / 20 < s.sellAmountIn24Hours / totalAcquired
        else 0 < s.sellAmountIn24Hours
      if s.sellsIn15Mins then Status.SELLING
      else if s.sellsIn24Hours ∧ hasSignificantSell then Status.SOLD
      else if s.transfersOutIn24Hours then Status.TRANSFERRED
      else if s.transfersInIn24Hours then Status.RECEIVED
      else if s.buysIn24Hours then
        if s.totalBuys = 1 ∧ s.totalTransfersIn = 0 then Status.BUY
        else Status.BOUGHT_MORE
      else Status.HOLDING

/-! ## Watch set maintenance, addWallets of fetch-holders.js -/

/-- Model of addWallets: append the imported wallets whose lowercased address is
not already present in the previous watch set. -/
def addWallets (prev newWallets : List WatchedWallet) : List WatchedWallet :=
  let existingAddresses := prev.map (fun w => jsLower w.address)
  let uniqueNew := newWallets.filter
    (fun w => ¬ existingAddresses.contains (jsLower w.address))
  prev ++ uniqueNew

/-! ## Derived views of the status pipeline used to state the theorems -/

/-- The processed transactions of one wallet, as walletTransactionsMap groups
them: the transactions whose key is the lowercased wallet address, in order,
each with its assigned category. -/
def statusTxsOf (wallets : List WatchedWallet) (txs : List UiTx) (w : String) :
    List ProcTx :=
  (txs.filter (fun tx => keyOf tx == some (jsLower w))).map
    (mkProcTx (trackedAddressesOf wallets))

/-- Contribution of one transaction to totalBought: BUY and TRANSFER_IN amounts
both count as acquired. -/
def boughtAmt (tx : UiTx) : ℚ :=
  if tx.type = "BUY" ∨ tx.type = "TRANSFER_IN" then tx.amount.getD 0 else 0

/-- The totalBought aggregate of one wallet, as walletTransactionsMap computes it. -/
def acquiredTotalOf (txs : List UiTx) (w : String) : ℚ :=
  (((txs.filter (fun tx => keyOf tx == some (jsLower w))).map boughtAmt)).sum

/-- Is this processed transaction a SELL within the fifteen minute window. -/
def isSell15 (now : Int) (p : ProcTx) : Bool :=
  match p.tx.timestamp with
  | none => false
  | some t => now - t ≤ FIFTEEN_MINS_MS ∧ p.category = "SELL"

/-- Is this processed transaction a SELL within the twenty four hour window. -/
def isSell24 (now : Int) (p : ProcTx) : Bool :=
  match p.tx.timestamp with
  | none => false
  | some t => now - t ≤ TWENTY_FOUR_HOURS_MS ∧ p.category = "SELL"

/-- Is this processed transaction a TRANSFER_OUT within the twenty four hour window. -/
def isOut24 (now : Int) (p : ProcTx) : Bool :=
  match p.tx.timestamp with
  | none => false
  | some t => now - t ≤ TWENTY_FOUR_HOURS_MS ∧ p.category = "TRANSFER_OUT"

/-- Is this processed transaction a TRANSFER_IN within the twenty four hour window. -/
def isIn24 (now : Int) (p : ProcTx) : Bool :=
  match p.tx.timestamp with
  | none => false
  | some t => now - t ≤ TWENTY_FOUR_HOURS_MS ∧ p.category = "TRANSFER_IN"

/-- Is this processed transaction a BUY within the twenty four hour window. -/
def isBuy24 (now : Int) (p : ProcTx) : Bool :=
  match p.tx.timestamp with
  | none => false
  | some t => now - t ≤ TWENTY_FOUR_HOURS_MS ∧ p.category = "BUY"

/-- Contribution of one processed transaction to sellAmountIn24Hours. -/
def sellAmt24 (now : Int) (p : ProcTx) : ℚ :=
  if isSell24 now p then p.tx.amount.getD 0 else 0

/-- The disposed amount of the twenty four hour window for one wallet. -/
def sellAmount24Of (wallets : List WatchedWallet) (txs : List UiTx) (now : Int)
    (w : String) : ℚ :=
  ((statusTxsOf wallets txs w).map (sellAmt24 now)).sum

/-- The significant sell test of getActivityStatus, stated over the derived views. -/
def significantSellOf (wallets : List WatchedWallet) (txs : List UiTx) (now : Int)
    (w : String) : Prop :=
  if 0 < acquiredTotalOf txs w then
    (1 : ℚ) / 20 < sellAmount24Of wallets txs now w / acquiredTotalOf txs w
  else 0 < sellAmount24Of wallets txs now w

instance (wallets : List WatchedWallet) (txs : List UiTx) (now : Int) (w : String) :
    Decidable (significantSellOf wallets txs now w) := by
  unfold significantSellOf; infer_instance

/-- A provider page that is newest first: every entry has a nonzero block time
and block times are non increasing along the page. -/
def pageDescNonzero (page : List SigInfo) : Prop :=
  (∀ s ∈ page, ∃ t, s.blockTime = some t ∧ t ≠ 0) ∧
  page.Pairwise (fun a b => b.blockTime.getD 0 ≤ a.blockTime.getD 0)

/-- The known signature guard applied to one signature before its detail fetch. -/
def guardOK (cfg : FetchConfig) (s : SigInfo) : Prop :=
  match cfg.knownSignatures with
  | some known => ¬ (known.contains s.signature = true)
  | none => True

/-! ## Concrete fixtures used by witnesses and counterexamples -/

/-- A syntactically valid wallet address: 32 base58 characters. -/
def wAddr : String := "11111111111111111111111111111111"

/-- A syntactically valid mint address: 32 base58 characters. -/
def mAddr : String := "22222222222222222222222222222222"

/-- A raw transaction touching the tracked mint for the watched wallet, with the
given pre and post token amounts and the given lamport change for the wallet. -/
def mkRawTx (preAmt postAmt lamports : Int) : RawTx :=
  { preTokenBalances := [{ mint := some mAddr, owner := some wAddr
                           amount := some preAmt, decimals := some 6 }]
    postTokenBalances := [{ mint := some mAddr, owner := some wAddr
                            amount := some postAmt, decimals := some 6 }]
    accountKeys := [wAddr]
    preBalances := [1000000000]
    postBalances := [1000000000 + lamports] }

/-- The transfer record produced at the exact 0.001 SOL boundary fixture. -/
def c1res : TokenTransferRes :=
  { type := "TRANSFER_OUT", amount := 2 / 1000000, rawAmount := 2, decimals := 6
    toWallet := none, fromWallet := none, solChange := 1 / 1000 }

/-- The transfer payload parsed from the C10 fixture transaction. -/
def c10res : TokenTransferRes :=
  { type := "TRANSFER_OUT", amount := 2 / 1000000, rawAmount := 2, decimals := 6
    toWallet := none, fromWallet := none, solChange := 0 }

/-- Reference time for the activity status fixtures, in epoch milliseconds. -/
def cexNow : Int := 1700000000000

/-- A TRANSFER_IN of 100 units twenty hours before cexNow. -/
def cexTIn : UiTx :=
  { walletAddress := some "w1", type := "TRANSFER_IN", amount := some 100
    timestamp := some (cexNow - 72000000), toWallet := none, fromWallet := none }

/-- A SELL of 3 units one hour before cexNow. -/
def cexTSell : UiTx :=
  { walletAddress := some "w1", type := "SELL", amount := some 3
    timestamp := some (cexNow - 3600000), toWallet := none, fromWallet := none }

/-- A SELL of 3 units one minute before cexNow. -/
def cexTSellFresh : UiTx :=
  { walletAddress := some "w1", type := "SELL", amount := some 3
    timestamp := some (cexNow - 60000), toWallet := none, fromWallet := none }

/-- The balance entry stored before the merge in the C6 scenario: uiBalance 5. -/
def c6Prev : BalanceEntry :=
  { info := { address := "a1", name := "w", balance := 5000000, decimals := some 6
              uiBalance := 5, error := none, lastUpdated := 50 }
    previousBalance := none, balanceHistory := [(5, 50)], firstSeen := 50, lastUpdated := 50 }

/-- A balance cache holding the C6 entry under token key tokA. -/
def c6cache : BalCache :=
  fun k => if k = "tokA" then some { wallets := [c6Prev], lastSync := 50 } else none

/-- First incoming record of the duplicate batch: uiBalance 7. -/
def c6w1 : WalletBalanceRec :=
  { address := "a1", name := "w", balance := 7000000, decimals := some 6
    uiBalance := 7, error := none, lastUpdated := 100 }

/-- Second incoming record of the duplicate batch, same address: uiBalance 9. -/
def c6w2 : WalletBalanceRec :=
  { address := "a1", name := "w", balance := 9000000, decimals := some 6
    uiBalance := 9, error := none, lastUpdated := 100 }

/-- Two watched wallets for the batch fetch witness. -/
def c7wA : WatchedWallet :=
  { id := "wa", name := "A", address := "addrA", group := "" }

def c7wB : WatchedWallet :=
  { id := "wb", name := "B", address := "addrB", group := "" }

/-- An oracle that fails for the second wallet only. -/
def c7f : String → DasResult :=
  fun a => if a = "addrB" then DasResult.failure "boom" else DasResult.found 3000000 6

/-- An oracle that agrees with c7f away from the second wallet. -/
def c7g : String → DasResult :=
  fun a => if a = "addrB" then DasResult.found 1000000 6 else DasResult.found 3000000 6

/-- Incremental fetch witness configuration: since bound 160000 ms, one known id. -/
def c8cfg : FetchConfig :=
  { walletAddress := wAddr, tokenMint := mAddr, targetCount := 15, maxPages := 3
    deepFetch := false, sinceTimestamp := some 160000, knownSignatures := some ["kx"]
    getTx := fun s => if s = "s1" then some (mkRawTx 5 3 0) else none }

/-- One newest first page whose oldest entry crosses the since bound. -/
def c8pages : List (List SigInfo) :=
  [[{ signature := "s1", blockTime := some 200 }, { signature := "s2", blockTime := some 150 }]]

/-- Early exit counterexample configuration: targetCount 0, not deep. -/
def c10cfg : FetchConfig :=
  { walletAddress := wAddr, tokenMint := mAddr, targetCount := 0, maxPages := 3
    deepFetch := false, sinceTimestamp := none, knownSignatures := none
    getTx := fun s => if s = "sig1" then some (mkRawTx 5 3 0) else none }

/-- One page with one signature whose detail parses to a transfer. -/
def c10pages : List (List SigInfo) :=
  [[{ signature := "sig1", blockTime := some 100 }]]

/-- The same configuration with targetCount 1, for the amended claim witness. -/
def c10cfg1 : FetchConfig :=
  { c10cfg with targetCount := 1 }

/-- Two imported wallets whose addresses differ only by case. -/
def c9wUpper : WatchedWallet :=
  { id := "u", name := "U", address := "ABC", group := "" }

def c9wLower : WatchedWallet :=
  { id := "l", name := "L", address := "abc", group := "" }

/-! ## Lemmas about walletTransactionsMap -/

/-- One forEach step on an optional per wallet aggregate. -/
def applyOptTx (tracked : List (String × String)) (o : Option WalletData) (tx : UiTx) :
    Option WalletData :=
  some (applyTx tracked (o.getD emptyWalletData) tx)

theorem foldl_mapStep_lookup (tracked : List (String × String)) (txs : List UiTx)
    (m : String → Option WalletData) (k : String) :
    (txs.foldl (mapStep tracked) m) k =
      (txs.filter (fun tx => keyOf tx == some k)).foldl (applyOptTx tracked) (m k) := by
  induction txs generalizing m with
  | nil => rfl
  | cons tx rest ih =>
    by_cases h : keyOf tx = some k
    · have hb : (keyOf tx == some k) = true := by simp [h]
      have hs : (mapStep tracked m tx) k =
          some (applyTx tracked ((m k).getD emptyWalletData) tx) := by
        simp [mapStep, h]
      simp only [List.foldl_cons, List.filter_cons, hb, if_true]
      rw [ih, hs]
      rfl
    · have hb : (keyOf tx == some k) = false := by
        simp only [beq_eq_false_iff_ne, ne_eq]
        exact h
      have hs : (mapStep tracked m tx) k = m k := by
        unfold mapStep
        rcases hk : keyOf tx with _ | k'
        · rfl
        · have hne : k ≠ k' := by
            rintro rfl
            exact h hk
          simp [hne]
      simp only [List.foldl_cons, List.filter_cons, hb, Bool.false_eq_true, if_false]
      rw [ih, hs]

theorem foldl_applyOptTx_some (tracked : List (String × String)) (l : List UiTx)
    (d : WalletData) :
    l.foldl (applyOptTx tracked) (some d) = some (l.foldl (applyTx tracked) d) := by
  induction l generalizing d with
  | nil => rfl
  | cons tx rest ih => simp only [List.foldl_cons, applyOptTx, Option.getD_some, ih]

theorem walletTransactionsMap_lookup (tracked : List (String × String))
    (txs : List UiTx) (k : String) :
    walletTransactionsMap tracked txs k =
      match txs.filter (fun tx => keyOf tx == some k) with
      | [] => none
      | tx :: rest =>
        some (rest.foldl (applyTx tracked) (applyTx tracked emptyWalletData tx)) := by
  unfold walletTransactionsMap
  rw [foldl_mapStep_lookup]
  rcases hf : txs.filter (fun tx => keyOf tx == some k) with _ | ⟨tx, rest⟩
  · rfl
  · simp only [List.foldl_cons, applyOptTx, Option.getD_none, foldl_applyOptTx_some]

/-! ## Lemmas about the per transaction aggregate update -/

theorem connectInbound_fields (tracked : List (String × String)) (d : WalletData)
    (tx : UiTx) :
    (connectInbound tracked d tx).transactions = d.transactions ∧
      (connectInbound tracked d tx).totalBought = d.totalBought := by
  unfold connectInbound
  by_cases h1 : truthyStr tx.fromWallet = true
  · by_cases h2 : hasKey tracked (jsLower (tx.fromWallet.getD "")) = true
    · simp [h1, h2]
    · simp [h1, h2]
  · simp [h1]

theorem connectOutbound_fields (tracked : List (String × String)) (d : WalletData)
    (tx : UiTx) :
    (connectOutbound tracked d tx).transactions = d.transactions ∧
      (connectOutbound tracked d tx).totalBought = d.totalBought := by
  unfold connectOutbound
  by_cases h1 : truthyStr tx.toWallet = true
  · simp [h1]
  · simp [h1]

theorem aggregateTx_transactions (tracked : List (String × String)) (d : WalletData)
    (tx : UiTx) :
    (aggregateTx tracked d tx).transactions = d.transactions := by
  by_cases h1 : tx.type = "BUY"
  · simp [aggregateTx, h1]
  · by_cases h2 : tx.type = "TRANSFER_IN"
    · simp [aggregateTx, h1, h2, (connectInbound_fields tracked _ tx).1]
    · by_cases h3 : tx.type = "TRANSFER_OUT"
      · simp [aggregateTx, h1, h2, h3, (connectOutbound_fields tracked _ tx).1]
      · by_cases h4 : tx.type = "SELL"
        · simp [aggregateTx, h1, h2, h3, h4]
        · by_cases h5 : truthyStr tx.toWallet = true ∧
            hasKey tracked (jsLower (tx.toWallet.getD "")) = true
          · simp [aggregateTx, h1, h2, h3, h4, h5]
          · simp [aggregateTx, h1, h2, h3, h4, h5]

theorem aggregateTx_totalBought (tracked : List (String × String)) (d : WalletData)
    (tx : UiTx) :
    (aggregateTx tracked d tx).totalBought = d.totalBought + boughtAmt tx := by
  by_cases h1 : tx.type = "BUY"
  · simp [aggregateTx, boughtAmt, h1]
  · by_cases h2 : tx.type = "TRANSFER_IN"
    · simp [aggregateTx, boughtAmt, h1, h2, (connectInbound_fields tracked _ tx).2]
    · by_cases h3 : tx.type = "TRANSFER_OUT"
      · simp [aggregateTx, boughtAmt, h1, h2, h3, (connectOutbound_fields tracked _ tx).2]
      · by_cases h4 : tx.type = "SELL"
        · simp [aggregateTx, boughtAmt, h1, h2, h3, h4]
        · by_cases h5 : truthyStr tx.toWallet = true ∧
            hasKey tracked (jsLower (tx.toWallet.getD "")) = true
          · simp [aggregateTx, boughtAmt, h1, h2, h3, h4, h5]
          · simp [aggregateTx, boughtAmt, h1, h2, h3, h4, h5]

theorem applyTx_transactions (tracked : List (String × String)) (d : WalletData)
    (tx : UiTx) :
    (applyTx tracked d tx).transactions = d.transactions ++ [mkProcTx tracked tx] := by
  simp only [applyTx]
  rw [aggregateTx_transactions]

theorem applyTx_totalBought (tracked : List (String × String)) (d : WalletData)
    (tx : UiTx) :
    (applyTx tracked d tx).totalBought = d.totalBought + boughtAmt tx := by
  simp only [applyTx]
  exact aggregateTx_totalBought tracked d tx

theorem foldl_applyTx_transactions (tracked : List (String × String)) (l : List UiTx)
    (d : WalletData) :
    (l.foldl (applyTx tracked) d).transactions =
      d.transactions ++ l.map (mkProcTx tracked) := by
  induction l generalizing d with
  | nil => simp
  | cons tx rest ih =>
    simp only [List.foldl_cons, List.map_cons, ih, applyTx_transactions, List.append_assoc,
      List.singleton_append]

theorem foldl_applyTx_totalBought (tracked : List (String × String)) (l : List UiTx)
    (d : WalletData) :
    (l.foldl (applyTx tracked) d).totalBought =
      d.totalBought + (l.map boughtAmt).sum := by
  induction l generalizing d with
  | nil => simp
  | cons tx rest ih =>
    simp only [List.foldl_cons, List.map_cons, List.sum_cons, ih, applyTx_totalBought]
    ring

/-! ## Lemmas about the getActivityStatus single pass scan -/

theorem scanStep_sellsIn15 (now : Int) (s : ScanState) (p : ProcTx) :
    (scanStep now s p).sellsIn15Mins = (s.sellsIn15Mins || isSell15 now p) := by
  unfold scanStep isSell15
  rcases h : p.tx.timestamp with _ | t
  · simp only [h]
    split_ifs <;> simp_all <;> (exfalso; omega)
  · simp only [h]
    split_ifs <;> simp_all <;> (exfalso; omega)

theorem scanStep_sellsIn24 (now : Int) (s : ScanState) (p : ProcTx) :
    (scanStep now s p).sellsIn24Hours = (s.sellsIn24Hours || isSell24 now p) := by
  unfold scanStep isSell24
  rcases h : p.tx.timestamp with _ | t
  · simp only [h]
    split_ifs <;> simp_all <;> (exfalso; omega)
  · simp only [h]
    split_ifs <;> simp_all <;> (exfalso; omega)

theorem scanStep_sellAmount (now : Int) (s : ScanState) (p : ProcTx) :
    (scanStep now s p).sellAmountIn24Hours = s.sellAmountIn24Hours + sellAmt24 now p := by
  unfold scanStep sellAmt24 isSell24
  rcases h : p.tx.timestamp with _ | t
  · simp only [h]
    split_ifs <;> simp_all <;> (exfalso; omega)
  · simp only [h]
    split_ifs <;> simp_all <;> (exfalso; omega)

theorem scanStep_transfersOut (now : Int) (s : ScanState) (p : ProcTx) :
    (scanStep now s p).transfersOutIn24Hours = (s.transfersOutIn24Hours || isOut24 now p) := by
  unfold scanStep isOut24
  rcases h : p.tx.timestamp with _ | t
  · simp only [h]
    split_ifs <;> simp_all <;> (exfalso; omega)
  · simp only [h]
    split_ifs <;> simp_all <;> (exfalso; omega)

theorem scanStep_transfersIn (now : Int) (s : ScanState) (p : ProcTx) :
    (scanStep now s p).transfersInIn24Hours = (s.transfersInIn24Hours || isIn24 now p) := by
  unfold scanStep isIn24
  rcases h : p.tx.timestamp with _ | t
  · simp only [h]
    split_ifs <;> simp_all <;> (exfalso; omega)
  · simp only [h]
    split_ifs <;> simp_all <;> (exfalso; omega)

theorem scanStep_buys (now : Int) (s : ScanState) (p : ProcTx) :
    (scanStep now s p).buysIn24Hours = (s.buysIn24Hours || isBuy24 now p) := by
  unfold scanStep isBuy24
  rcases h : p.tx.timestamp with _ | t
  · simp only [h]
    split_ifs <;> simp_all <;> (exfalso; omega)
  · simp only [h]
    split_ifs <;> simp_all <;> (exfalso; omega)

theorem scanLoop_sellsIn15 (now : Int) (s : ScanState) (l : List ProcTx) :
    (scanLoop now s l).sellsIn15Mins = (s.sellsIn15Mins || l.any (isSell15 now)) := by
  induction l generalizing s with
  | nil => simp [scanLoop]
  | cons p rest ih =>
    simp only [scanLoop, List.any_cons]
    by_cases hb : (scanStep now s p).sellsIn15Mins = true
    · rw [if_pos hb]
      rw [scanStep_sellsIn15] at hb ⊢
      cases hs : s.sellsIn15Mins <;> cases hp : isSell15 now p <;> simp_all
    · rw [if_neg hb, ih, scanStep_sellsIn15]
      rw [scanStep_sellsIn15] at hb
      cases hs : s.sellsIn15Mins <;> cases hp : isSell15 now p <;> simp_all

theorem scanLoop_noBreak (now : Int) (s : ScanState) (l : List ProcTx)
    (hs : s.sellsIn15Mins = false) (hl : l.any (isSell15 now) = false) :
    scanLoop now s l = l.foldl (scanStep now) s := by
  induction l generalizing s with
  | nil => rfl
  | cons p rest ih =>
    simp only [List.any_cons, Bool.or_eq_false_iff] at hl
    have hstep : (scanStep now s p).sellsIn15Mins = false := by
      rw [scanStep_sellsIn15, hs, hl.1]
      rfl
    simp only [scanLoop, hstep, Bool.false_eq_true, if_false, List.foldl_cons]
    exact ih _ hstep hl.2

theorem foldl_scanStep_sellsIn24 (now : Int) (l : List ProcTx) (s : ScanState) :
    (l.foldl (scanStep now) s).sellsIn24Hours = (s.sellsIn24Hours || l.any (isSell24 now)) := by
  induction l generalizing s with
  | nil => simp
  | cons p rest ih =>
    simp only [List.foldl_cons, List.any_cons, ih, scanStep_sellsIn24, Bool.or_assoc]

theorem foldl_scanStep_sellAmount (now : Int) (l : List ProcTx) (s : ScanState) :
    (l.foldl (scanStep now) s).sellAmountIn24Hours =
      s.sellAmountIn24Hours + (l.map (sellAmt24 now)).sum := by
  induction l generalizing s with
  | nil => simp
  | cons p rest ih =>
    simp only [List.foldl_cons, List.map_cons, List.sum_cons, ih, scanStep_sellAmount]
    ring

theorem foldl_scanStep_transfersOut (now : Int) (l : List ProcTx) (s : ScanState) :
    (l.foldl (scanStep now) s).transfersOutIn24Hours =
      (s.transfersOutIn24Hours || l.any (isOut24 now)) := by
  induction l generalizing s with
  | nil => simp
  | cons p rest ih =>
    simp only [List.foldl_cons, List.any_cons, ih, scanStep_transfersOut, Bool.or_assoc]

theorem foldl_scanStep_transfersIn (now : Int) (l : List ProcTx) (s : ScanState) :
    (l.foldl (scanStep now) s).transfersInIn24Hours =
      (s.transfersInIn24Hours || l.any (isIn24 now)) := by
  induction l generalizing s with
  | nil => simp
  | cons p rest ih =>
    simp only [List.foldl_cons, List.any_cons, ih, scanStep_transfersIn, Bool.or_assoc]

theorem foldl_scanStep_buys (now : Int) (l : List ProcTx) (s : ScanState) :
    (l.foldl (scanStep now) s).buysIn24Hours = (s.buysIn24Hours || l.any (isBuy24 now)) := by
  induction l generalizing s with
  | nil => simp
  | cons p rest ih =>
    simp only [List.foldl_cons, List.any_cons, ih, scanStep_buys, Bool.or_assoc]

theorem statusTxsOf_filter (wallets : List WatchedWallet) (txs : List UiTx) (w : String) :
    statusTxsOf wallets txs w =
      (txs.filter (fun tx => keyOf tx == some (jsLower w))).map
        (mkProcTx (trackedAddressesOf wallets)) := rfl

theorem getActivityStatus_eq_scan (wallets : List WatchedWallet) (txs : List UiTx)
    (now : Int) (w : String) (b : ℚ) (hb : 0 < b)
    (hne : statusTxsOf wallets txs w ≠ []) :
    getActivityStatus wallets txs now w (some b) =
      (let l := statusTxsOf wallets txs w
       let s := scanLoop now initialScanState l
       let totalAcquired := acquiredTotalOf txs w
       let hasSig : Prop := if 0 < totalAcquired then
           (1 : ℚ) / 20 < s.sellAmountIn24Hours / totalAcquired
         else 0 < s.sellAmountIn24Hours
       if s.sellsIn15Mins then Status.SELLING
       else if s.sellsIn24Hours ∧ hasSig then Status.SOLD
       else if s.transfersOutIn24Hours then Status.TRANSFERRED
       else if s.transfersInIn24Hours then Status.RECEIVED
       else if s.buysIn24Hours then
         if s.totalBuys = 1 ∧ s.totalTransfersIn = 0 then Status.BUY else Status.BOUGHT_MORE
       else Status.HOLDING) := by
  have hout : balanceIsOut (some b) = false := by
    unfold balanceIsOut
    exact decide_eq_false (not_le.mpr hb)
  rcases hf : txs.filter (fun tx => keyOf tx == some (jsLower w)) with _ | ⟨tx, rest⟩
  · exact absurd (by rw [statusTxsOf_filter, hf]; rfl) hne
  · have hm : walletTransactionsMap (trackedAddressesOf wallets) txs (jsLower w) =
        some (rest.foldl (applyTx (trackedAddressesOf wallets))
          (applyTx (trackedAddressesOf wallets) emptyWalletData tx)) := by
      rw [walletTransactionsMap_lookup, hf]
    have htr : (rest.foldl (applyTx (trackedAddressesOf wallets))
        (applyTx (trackedAddressesOf wallets) emptyWalletData tx)).transactions =
        statusTxsOf wallets txs w := by
      rw [← List.foldl_cons, foldl_applyTx_transactions, statusTxsOf_filter, hf]
      rfl
    have htb : (rest.foldl (applyTx (trackedAddressesOf wallets))
        (applyTx (trackedAddressesOf wallets) emptyWalletData tx)).totalBought =
        acquiredTotalOf txs w := by
      rw [← List.foldl_cons, foldl_applyTx_totalBought]
      unfold acquiredTotalOf
      rw [hf]
      simp [emptyWalletData]
    unfold getActivityStatus
    rw [if_neg (by rw [hout]; exact Bool.false_ne_true)]
    simp only [hm, Option.map_some', Option.getD_some, htr, htb]
    rw [if_neg (by simp only [List.length_eq_zero]; exact hne)]

theorem foldl_scanStep_sellsIn15 (now : Int) (l : List ProcTx) (s : ScanState) :
    (l.foldl (scanStep now) s).sellsIn15Mins = (s.sellsIn15Mins || l.any (isSell15 now)) := by
  induction l generalizing s with
  | nil => simp
  | cons p rest ih =>
    simp only [List.foldl_cons, List.any_cons, ih, scanStep_sellsIn15, Bool.or_assoc]

theorem status_selling (wallets : List WatchedWallet) (txs : List UiTx) (now : Int)
    (w : String) (b : ℚ) (hb : 0 < b)
    (h15 : (statusTxsOf wallets txs w).any (isSell15 now) = true) :
    getActivityStatus wallets txs now w (some b) = Status.SELLING := by
  have hne : statusTxsOf wallets txs w ≠ [] := by
    intro h0
    rw [h0] at h15
    simp at h15
  rw [getActivityStatus_eq_scan wallets txs now w b hb hne]
  have hs : (scanLoop now initialScanState (statusTxsOf wallets txs w)).sellsIn15Mins = true := by
    rw [scanLoop_sellsIn15, h15]
    simp
  simp only [hs, if_true]

theorem status_noSell15 (wallets : List WatchedWallet) (txs : List UiTx) (now : Int)
    (w : String) (b : ℚ) (hb : 0 < b) (hne : statusTxsOf wallets txs w ≠ [])
    (h15 : (statusTxsOf wallets txs w).any (isSell15 now) = false) :
    getActivityStatus wallets txs now w (some b) =
      (let l := statusTxsOf wallets txs w
       if l.any (isSell24 now) = true ∧ significantSellOf wallets txs now w then Status.SOLD
       else if l.any (isOut24 now) = true then Status.TRANSFERRED
       else if l.any (isIn24 now) = true then Status.RECEIVED
       else if l.any (isBuy24 now) = true then
         if (l.foldl (scanStep now) initialScanState).totalBuys = 1 ∧
             (l.foldl (scanStep now) initialScanState).totalTransfersIn = 0 then Status.BUY
         else Status.BOUGHT_MORE
       else Status.HOLDING) := by
  rw [getActivityStatus_eq_scan wallets txs now w b hb hne]
  have hloop : scanLoop now initialScanState (statusTxsOf wallets txs w) =
      (statusTxsOf wallets txs w).foldl (scanStep now) initialScanState :=
    scanLoop_noBreak now _ _ rfl h15
  simp only [hloop]
  simp only [foldl_scanStep_sellsIn15, foldl_scanStep_sellsIn24,
    foldl_scanStep_sellAmount, foldl_scanStep_transfersOut, foldl_scanStep_transfersIn,
    foldl_scanStep_buys, initialScanState, Bool.false_or, zero_add, h15,
    Bool.false_eq_true, if_false, significantSellOf, sellAmount24Of, acquiredTotalOf]

/-! ## C1: classifier thresholds -/

/-- C1: for every raw transaction classified for a watched wallet, a negative
token delta yields SELL exactly when the SOL delta strictly exceeds 0.001 and
TRANSFER_OUT otherwise, so a SOL delta of exactly 0.001 yields TRANSFER_OUT; a
positive token delta yields BUY exactly when the SOL delta is strictly below
minus 0.01 and TRANSFER_IN otherwise. -/
theorem C1_classifier_thresholds (tx : RawTx) (wallet mint : String)
    (r : TokenTransferRes) (h : parseTokenTransfer tx wallet mint = some r) :
    (tokenDeltaOf tx wallet mint < 0 →
      ((r.type = "SELL" ↔ (1 : ℚ) / 1000 < solDeltaOf tx wallet) ∧
       (r.type = "TRANSFER_OUT" ↔ ¬ ((1 : ℚ) / 1000 < solDeltaOf tx wallet)) ∧
       (solDeltaOf tx wallet = 1 / 1000 → r.type = "TRANSFER_OUT"))) ∧
    (0 < tokenDeltaOf tx wallet mint →
      ((r.type = "BUY" ↔ solDeltaOf tx wallet < -((1 : ℚ) / 100)) ∧
       (r.type = "TRANSFER_IN" ↔ ¬ (solDeltaOf tx wallet < -((1 : ℚ) / 100))))) := by
  have htd : tokenDeltaOf tx wallet mint =
      (balanceScan tx wallet mint).postAmount - (balanceScan tx wallet mint).preAmount := rfl
  have hsd : solDeltaOf tx wallet =
      ((solChangeLamports tx (jsTrim wallet) : ℚ) / 1000000000) := rfl
  unfold parseTokenTransfer at h
  dsimp only [] at h
  split_ifs at h with h1 h2 h3 h4 <;>
    first
    | exact Option.noConfusion h
    | (rename_i hsol
       have hr := (Option.some.injEq _ _).mp h
       subst hr
       constructor
       · intro hneg
         first
         | exact absurd hneg (by rw [htd]; omega)
         | exact ⟨by simp [hsd]; simpa using hsol, by simp [hsd]; simpa using hsol, by
             first
             | (intro hb
                rw [hsd] at hb
                rw [hb] at hsol
                exact absurd hsol (lt_irrefl _))
             | (intro _
                rfl)⟩
       · intro hpos
         first
         | exact absurd hpos (by rw [htd]; omega)
         | exact ⟨by simp [hsd]; simpa using hsol, by simp [hsd]; simpa using hsol⟩)

/-- C1 witness: the boundary fixture with SOL delta exactly 0.001 parses to a
transfer, has negative token delta, and is classified TRANSFER_OUT. -/
theorem C1_classifier_thresholds_witness :
    parseTokenTransfer (mkRawTx 5 3 1000000) wAddr mAddr = some c1res ∧
    tokenDeltaOf (mkRawTx 5 3 1000000) wAddr mAddr < 0 ∧
    solDeltaOf (mkRawTx 5 3 1000000) wAddr = 1 / 1000 ∧
    c1res.type = "TRANSFER_OUT" := by
  have e1 : jsTrim wAddr = wAddr := by decide
  have e2 : jsTrim mAddr = mAddr := by decide
  have e3 : jsLower wAddr = wAddr := by decide
  have e4 : jsLower mAddr = mAddr := by decide
  have n1 : ¬ (wAddr = "") := by decide
  have n2 : ¬ (mAddr = "") := by decide
  have hd : tokenDeltaOf (mkRawTx 5 3 1000000) wAddr mAddr < 0 := by
    norm_num [tokenDeltaOf, balanceScan, mkRawTx, e1, e2, e3, e4, n1, n2, scanPreStep,
      scanPostStep, initialBalScanState, balRelevant, truthyStr, jsDecimals,
      getAssoc, setAssoc]
  have hs : solDeltaOf (mkRawTx 5 3 1000000) wAddr = 1 / 1000 := by
    norm_num [solDeltaOf, solChangeLamports, mkRawTx, e1, e3, n1]
  have hp : parseTokenTransfer (mkRawTx 5 3 1000000) wAddr mAddr = some c1res := by
    norm_num [parseTokenTransfer, balanceScan, mkRawTx, e1, e2, e3, e4, n1, n2, scanPreStep,
      scanPostStep, initialBalScanState, balRelevant, truthyStr, jsDecimals,
      getAssoc, setAssoc, solChangeLamports, findCounterparty, c1res]
  exact ⟨hp, hd, hs, ((C1_classifier_thresholds _ _ _ _ hp).1 hd).2.2 hs⟩

/-! ## C2 and C3: activity status rules -/

theorem cexKeyIn : keyOf cexTIn = some "w1" := by
  have hw : jsLower "w1" = "w1" := by decide
  simp [keyOf, cexTIn, hw]

theorem cexKeySell : keyOf cexTSell = some "w1" := by
  have hw : jsLower "w1" = "w1" := by decide
  simp [keyOf, cexTSell, hw]

theorem cexKeySellFresh : keyOf cexTSellFresh = some "w1" := by
  have hw : jsLower "w1" = "w1" := by decide
  simp [keyOf, cexTSellFresh, hw]

theorem cexStatusTxs : statusTxsOf [] [cexTIn, cexTSell] "w1" =
    [mkProcTx [] cexTIn, mkProcTx [] cexTSell] := by
  have hw : jsLower "w1" = "w1" := by decide
  simp [statusTxsOf, hw, cexKeyIn, cexKeySell, trackedAddressesOf]

theorem cexFreshStatusTxs : statusTxsOf [] [cexTIn, cexTSellFresh] "w1" =
    [mkProcTx [] cexTIn, mkProcTx [] cexTSellFresh] := by
  have hw : jsLower "w1" = "w1" := by decide
  simp [statusTxsOf, hw, cexKeyIn, cexKeySellFresh, trackedAddressesOf]

theorem cexCatIn : (mkProcTx [] cexTIn).category = "TRANSFER_IN" := by
  simp [mkProcTx, categoryOf, cexTIn]

theorem cexCatSell : (mkProcTx [] cexTSell).category = "SELL" := by
  simp [mkProcTx, categoryOf, cexTSell]

theorem cexCatSellFresh : (mkProcTx [] cexTSellFresh).category = "SELL" := by
  simp [mkProcTx, categoryOf, cexTSellFresh]

theorem cexAny24 : (statusTxsOf [] [cexTIn, cexTSell] "w1").any (isSell24 cexNow) = true := by
  rw [cexStatusTxs]
  simp only [List.any_cons, List.any_nil]
  have : isSell24 cexNow (mkProcTx [] cexTSell) = true := by
    simp [isSell24, mkProcTx, cexTSell, cexCatSell, cexNow, TWENTY_FOUR_HOURS_MS, categoryOf]
  simp [this]

theorem cexAny15 : (statusTxsOf [] [cexTIn, cexTSell] "w1").any (isSell15 cexNow) = false := by
  rw [cexStatusTxs]
  simp only [List.any_cons, List.any_nil]
  have h1 : isSell15 cexNow (mkProcTx [] cexTIn) = false := by
    simp [isSell15, mkProcTx, cexTIn, cexNow, FIFTEEN_MINS_MS, categoryOf]
  have h2 : isSell15 cexNow (mkProcTx [] cexTSell) = false := by
    simp [isSell15, mkProcTx, cexTSell, cexNow, FIFTEEN_MINS_MS, categoryOf]
  simp [h1, h2]

theorem cexAnyIn : (statusTxsOf [] [cexTIn, cexTSell] "w1").any (isIn24 cexNow) = true := by
  rw [cexStatusTxs]
  simp only [List.any_cons, List.any_nil]
  have : isIn24 cexNow (mkProcTx [] cexTIn) = true := by
    simp [isIn24, mkProcTx, cexTIn, cexNow, TWENTY_FOUR_HOURS_MS, categoryOf]
  simp [this]

theorem cexAnyOut : (statusTxsOf [] [cexTIn, cexTSell] "w1").any (isOut24 cexNow) = false := by
  rw [cexStatusTxs]
  simp only [List.any_cons, List.any_nil]
  have h1 : isOut24 cexNow (mkProcTx [] cexTIn) = false := by
    simp [isOut24, mkProcTx, cexTIn, cexNow, TWENTY_FOUR_HOURS_MS, categoryOf]
  have h2 : isOut24 cexNow (mkProcTx [] cexTSell) = false := by
    simp [isOut24, mkProcTx, cexTSell, cexNow, TWENTY_FOUR_HOURS_MS, categoryOf]
  simp [h1, h2]

theorem cexNoSig : ¬ significantSellOf [] [cexTIn, cexTSell] cexNow "w1" := by
  have hacq : acquiredTotalOf [cexTIn, cexTSell] "w1" = 100 := by
    have hw : jsLower "w1" = "w1" := by decide
    have hfil : [cexTIn, cexTSell].filter (fun tx => keyOf tx == some (jsLower "w1")) =
        [cexTIn, cexTSell] := by
      simp [hw, cexKeyIn, cexKeySell]
    rw [acquiredTotalOf, hfil]
    have b1 : boughtAmt cexTIn = 100 := by simp [boughtAmt, cexTIn]
    have b2 : boughtAmt cexTSell = 0 := by simp [boughtAmt, cexTSell]
    simp [b1, b2]
  have hsell : sellAmount24Of [] [cexTIn, cexTSell] cexNow "w1" = 3 := by
    rw [sellAmount24Of, cexStatusTxs]
    have h1 : sellAmt24 cexNow (mkProcTx [] cexTIn) = 0 := by
      simp [sellAmt24, isSell24, mkProcTx, cexTIn, categoryOf]
    have h2 : sellAmt24 cexNow (mkProcTx [] cexTSell) = 3 := by
      simp [sellAmt24, isSell24, mkProcTx, cexTSell, cexCatSell, cexNow,
        TWENTY_FOUR_HOURS_MS, categoryOf]
    simp [h1, h2]
  unfold significantSellOf
  rw [hacq, hsell]
  norm_num

/-- C2 (amended): for a wallet with positive balance, a SELL inside the twenty
four hour window and none inside the fifteen minute window, the status is SOLD
exactly when the window sell amount is significant against the acquired total
as the code computes it, where the acquired total sums both BUY and TRANSFER_IN
amounts (any positive sell amount when that total is zero); otherwise
evaluation falls through to the lower priority labels. -/
theorem C2_sold_rule (wallets : List WatchedWallet) (txs : List UiTx) (now : Int)
    (w : String) (b : ℚ) (hb : 0 < b)
    (h24 : (statusTxsOf wallets txs w).any (isSell24 now) = true)
    (h15 : (statusTxsOf wallets txs w).any (isSell15 now) = false) :
    (getActivityStatus wallets txs now w (some b) = Status.SOLD ↔
      significantSellOf wallets txs now w) ∧
    (¬ significantSellOf wallets txs now w →
      getActivityStatus wallets txs now w (some b) = Status.TRANSFERRED ∨
      getActivityStatus wallets txs now w (some b) = Status.RECEIVED ∨
      getActivityStatus wallets txs now w (some b) = Status.BUY ∨
      getActivityStatus wallets txs now w (some b) = Status.BOUGHT_MORE ∨
      getActivityStatus wallets txs now w (some b) = Status.HOLDING) := by
  have hne : statusTxsOf wallets txs w ≠ [] := by
    intro h0
    rw [h0] at h24
    simp at h24
  have hst := status_noSell15 wallets txs now w b hb hne h15
  rw [hst]
  dsimp only []
  by_cases hsig : significantSellOf wallets txs now w
  · rw [if_pos ⟨h24, hsig⟩]
    exact ⟨iff_of_true rfl hsig, fun hn => absurd hsig hn⟩
  · rw [if_neg (fun hc => hsig hc.2)]
    constructor
    · apply iff_of_false _ hsig
      split_ifs <;> simp
    · intro _
      split_ifs <;> simp

/-- C2 counterexample: a wallet holding a positive balance with one TRANSFER_IN
of 100 and one SELL of 3 inside the twenty four hour window, none inside the
fifteen minute window, and no BUY anywhere; the claim as stated requires SOLD
because the disposed amount is positive and no ACQUIRE exists, but the code
counts the TRANSFER_IN amount into the acquired total, finds 3 of 100 below
five percent, and returns RECEIVED. -/
theorem C2_sold_rule_counterexample :
    (statusTxsOf [] [cexTIn, cexTSell] "w1").any (isSell24 cexNow) = true ∧
    (statusTxsOf [] [cexTIn, cexTSell] "w1").any (isSell15 cexNow) = false ∧
    (∀ p ∈ statusTxsOf [] [cexTIn, cexTSell] "w1", p.category ≠ "BUY") ∧
    0 < sellAmount24Of [] [cexTIn, cexTSell] cexNow "w1" ∧
    getActivityStatus [] [cexTIn, cexTSell] cexNow "w1" (some 10) = Status.RECEIVED ∧
    Status.RECEIVED ≠ Status.SOLD := by
  have hne : statusTxsOf [] [cexTIn, cexTSell] "w1" ≠ [] := by
    rw [cexStatusTxs]
    simp
  have hst := status_noSell15 [] [cexTIn, cexTSell] cexNow "w1" 10 (by norm_num) hne cexAny15
  have hstat : getActivityStatus [] [cexTIn, cexTSell] cexNow "w1" (some 10) =
      Status.RECEIVED := by
    rw [hst]
    dsimp only []
    rw [if_neg (fun hc => cexNoSig hc.2), if_neg (by simp [cexAnyOut]), if_pos cexAnyIn]
  refine ⟨cexAny24, cexAny15, ?_, ?_, hstat, by simp⟩
  · rw [cexStatusTxs]
    intro p hp
    simp only [List.mem_cons, List.not_mem_nil, or_false] at hp
    rcases hp with h | h
    · rw [h, cexCatIn]
      simp
    · rw [h, cexCatSell]
      simp
  · have hsell : sellAmount24Of [] [cexTIn, cexTSell] cexNow "w1" = 3 := by
      rw [sellAmount24Of, cexStatusTxs]
      have h1 : sellAmt24 cexNow (mkProcTx [] cexTIn) = 0 := by
        simp [sellAmt24, isSell24, mkProcTx, cexTIn, categoryOf]
      have h2 : sellAmt24 cexNow (mkProcTx [] cexTSell) = 3 := by
        simp [sellAmt24, isSell24, mkProcTx, cexTSell, cexCatSell, cexNow,
          TWENTY_FOUR_HOURS_MS, categoryOf]
      simp [h1, h2]
    rw [hsell]
    norm_num

/-- C2 witness: the amended rule applied to the counterexample scenario, where
the significance test fails and the status resolves below SOLD. -/
theorem C2_sold_rule_witness :
    (0 : ℚ) < 10 ∧
    (getActivityStatus [] [cexTIn, cexTSell] cexNow "w1" (some 10) = Status.SOLD ↔
      significantSellOf [] [cexTIn, cexTSell] cexNow "w1") := by
  exact ⟨by norm_num,
    (C2_sold_rule [] [cexTIn, cexTSell] cexNow "w1" 10 (by norm_num) cexAny24 cexAny15).1⟩

/-- C3: priority of the status rules on a wallet with positive balance holding
both a SELL and a TRANSFER_IN in the twenty four hour window and no
TRANSFER_OUT: the result is SELLING exactly on a fifteen minute SELL, else SOLD
exactly on a significant disposal, else RECEIVED, never any lower priority
label such as HOLDING. -/
theorem C3_priority_windows (wallets : List WatchedWallet) (txs : List UiTx) (now : Int)
    (w : String) (b : ℚ) (hb : 0 < b)
    (h24 : (statusTxsOf wallets txs w).any (isSell24 now) = true)
    (hin : (statusTxsOf wallets txs w).any (isIn24 now) = true)
    (hout : (statusTxsOf wallets txs w).any (isOut24 now) = false) :
    (getActivityStatus wallets txs now w (some b) = Status.SELLING ∨
     getActivityStatus wallets txs now w (some b) = Status.SOLD ∨
     getActivityStatus wallets txs now w (some b) = Status.RECEIVED) ∧
    ((statusTxsOf wallets txs w).any (isSell15 now) = true →
      getActivityStatus wallets txs now w (some b) = Status.SELLING) ∧
    ((statusTxsOf wallets txs w).any (isSell15 now) = false →
      (significantSellOf wallets txs now w →
        getActivityStatus wallets txs now w (some b) = Status.SOLD) ∧
      (¬ significantSellOf wallets txs now w →
        getActivityStatus wallets txs now w (some b) = Status.RECEIVED)) := by
  have hne : statusTxsOf wallets txs w ≠ [] := by
    intro h0
    rw [h0] at h24
    simp at h24
  by_cases h15 : (statusTxsOf wallets txs w).any (isSell15 now) = true
  · have hs := status_selling wallets txs now w b hb h15
    refine ⟨Or.inl hs, fun _ => hs, fun hf => ?_⟩
    rw [hf] at h15
    exact absurd h15 Bool.false_ne_true
  · have h15f : (statusTxsOf wallets txs w).any (isSell15 now) = false := by
      revert h15
      cases (statusTxsOf wallets txs w).any (isSell15 now) <;> simp
    have hst := status_noSell15 wallets txs now w b hb hne h15f
    by_cases hsig : significantSellOf wallets txs now w
    · have hsold : getActivityStatus wallets txs now w (some b) = Status.SOLD := by
        rw [hst]
        dsimp only []
        rw [if_pos ⟨h24, hsig⟩]
      exact ⟨Or.inr (Or.inl hsold), fun h15t => absurd h15t h15,
        fun _ => ⟨fun _ => hsold, fun hn => absurd hsig hn⟩⟩
    · have hrecv : getActivityStatus wallets txs now w (some b) = Status.RECEIVED := by
        rw [hst]
        dsimp only []
        rw [if_neg (fun hc => hsig hc.2), if_neg (by simp [hout]), if_pos hin]
      exact ⟨Or.inr (Or.inr hrecv), fun h15t => absurd h15t h15,
        fun _ => ⟨fun hs => absurd hs hsig, fun _ => hrecv⟩⟩

theorem cexFreshAny24 :
    (statusTxsOf [] [cexTIn, cexTSellFresh] "w1").any (isSell24 cexNow) = true := by
  rw [cexFreshStatusTxs]
  simp only [List.any_cons, List.any_nil]
  have : isSell24 cexNow (mkProcTx [] cexTSellFresh) = true := by
    simp [isSell24, mkProcTx, cexTSellFresh, cexCatSellFresh, cexNow,
      TWENTY_FOUR_HOURS_MS, categoryOf]
  simp [this]

theorem cexFreshAnyIn :
    (statusTxsOf [] [cexTIn, cexTSellFresh] "w1").any (isIn24 cexNow) = true := by
  rw [cexFreshStatusTxs]
  simp only [List.any_cons, List.any_nil]
  have : isIn24 cexNow (mkProcTx [] cexTIn) = true := by
    simp [isIn24, mkProcTx, cexTIn, cexNow, TWENTY_FOUR_HOURS_MS, categoryOf]
  simp [this]

theorem cexFreshAnyOut :
    (statusTxsOf [] [cexTIn, cexTSellFresh] "w1").any (isOut24 cexNow) = false := by
  rw [cexFreshStatusTxs]
  simp only [List.any_cons, List.any_nil]
  have h1 : isOut24 cexNow (mkProcTx [] cexTIn) = false := by
    simp [isOut24, mkProcTx, cexTIn, cexNow, TWENTY_FOUR_HOURS_MS, categoryOf]
  have h2 : isOut24 cexNow (mkProcTx [] cexTSellFresh) = false := by
    simp [isOut24, mkProcTx, cexTSellFresh, cexNow, TWENTY_FOUR_HOURS_MS, categoryOf]
  simp [h1, h2]

theorem cexFreshAny15 :
    (statusTxsOf [] [cexTIn, cexTSellFresh] "w1").any (isSell15 cexNow) = true := by
  rw [cexFreshStatusTxs]
  simp only [List.any_cons, List.any_nil]
  have : isSell15 cexNow (mkProcTx [] cexTSellFresh) = true := by
    simp [isSell15, mkProcTx, cexTSellFresh, cexCatSellFresh, cexNow,
      FIFTEEN_MINS_MS, categoryOf]
  simp [this]

/-- C3 witness: a wallet with a TRANSFER_IN twenty hours ago and a SELL one
minute ago resolves to SELLING. -/
theorem C3_priority_windows_witness :
    (0 : ℚ) < 10 ∧
    getActivityStatus [] [cexTIn, cexTSellFresh] cexNow "w1" (some 10) = Status.SELLING := by
  refine ⟨by norm_num, ?_⟩
  exact (C3_priority_windows [] [cexTIn, cexTSellFresh] cexNow "w1" 10 (by norm_num)
    cexFreshAny24 cexFreshAnyIn cexFreshAnyOut).2.1 cexFreshAny15

/-! ## C4 and C5: cache merge idempotence and isolation -/

theorem contains_of_mem_str {l : List String} {s : String} (h : s ∈ l) :
    l.contains s = true :=
  List.contains_iff_exists_mem_beq.mpr ⟨s, h, by simp⟩

theorem existingOf_after (cache : TxCache) (tokenMint : String) (txs : List Transfer)
    (now : Int) :
    existingOf (cacheTransactions cache tokenMint txs now).cache tokenMint =
      mergedOf cache tokenMint txs := by
  simp [existingOf, cacheTransactions]

theorem sig_mem_mergedOf (cache : TxCache) (tokenMint : String) (txs : List Transfer)
    (tx : Transfer) (h : tx ∈ txs) :
    tx.signature ∈ (mergedOf cache tokenMint txs).map (·.signature) := by
  have hperm : ((mergedOf cache tokenMint txs).map (·.signature)).Perm
      (((uniqueNewOf cache tokenMint txs ++ existingOf cache tokenMint)).map (·.signature)) :=
    (List.mergeSort_perm _ _).map _
  rw [hperm.mem_iff, List.map_append, List.mem_append]
  by_cases hc : ((existingOf cache tokenMint).map (·.signature)).contains tx.signature = true
  · right
    rcases List.contains_iff_exists_mem_beq.mp hc with ⟨s, hs, hbeq⟩
    simp only [beq_iff_eq] at hbeq
    rw [hbeq]
    exact hs
  · left
    apply List.mem_map_of_mem
    rw [uniqueNewOf, List.mem_filter]
    refine ⟨h, ?_⟩
    simp only [decide_not, Bool.not_eq_true', decide_eq_false_iff_not]
    intro hcon
    exact hc hcon

theorem uniqueNewOf_after (cache : TxCache) (tokenMint : String) (txs : List Transfer)
    (now : Int) :
    uniqueNewOf (cacheTransactions cache tokenMint txs now).cache tokenMint txs = [] := by
  rw [uniqueNewOf, List.filter_eq_nil_iff]
  intro tx htx
  rw [existingOf_after]
  simp only [decide_not, Bool.not_eq_true', Bool.not_eq_false, decide_eq_true_eq]
  exact contains_of_mem_str (sig_mem_mergedOf cache tokenMint txs tx htx)

theorem mergedOf_after (cache : TxCache) (tokenMint : String) (txs : List Transfer)
    (now : Int) :
    (mergedOf (cacheTransactions cache tokenMint txs now).cache tokenMint txs).Perm
      (mergedOf cache tokenMint txs) := by
  have h1 := uniqueNewOf_after cache tokenMint txs now
  have : mergedOf (cacheTransactions cache tokenMint txs now).cache tokenMint txs =
      (mergedOf cache tokenMint txs).mergeSort
        (fun a b => tsVal b.timestamp ≤ tsVal a.timestamp) := by
    rw [mergedOf, h1, existingOf_after]
    rfl
  rw [this]
  exact List.mergeSort_perm _ _

/-- C4: merging the same transfer list twice is idempotent: the second merge
reports zero added transfers and an unchanged total, and the set of cached
signatures under the asset key is unchanged by the second merge. -/
theorem C4_transfer_merge_idempotent (cache : TxCache) (tokenMint : String)
    (txs : List Transfer) (now now' : Int) :
    (cacheTransactions (cacheTransactions cache tokenMint txs now).cache
        tokenMint txs now').added = 0 ∧
    (cacheTransactions (cacheTransactions cache tokenMint txs now).cache
        tokenMint txs now').total = (cacheTransactions cache tokenMint txs now).total ∧
    ∀ s : String,
      (∃ tx ∈ existingOf (cacheTransactions (cacheTransactions cache tokenMint txs now).cache
          tokenMint txs now').cache tokenMint, tx.signature = s) ↔
      (∃ tx ∈ existingOf (cacheTransactions cache tokenMint txs now).cache tokenMint,
          tx.signature = s) := by
  refine ⟨?_, ?_, ?_⟩
  · show (uniqueNewOf (cacheTransactions cache tokenMint txs now).cache tokenMint txs).length = 0
    rw [uniqueNewOf_after]
    rfl
  · show (mergedOf (cacheTransactions cache tokenMint txs now).cache tokenMint txs).length =
      (mergedOf cache tokenMint txs).length
    exact (mergedOf_after cache tokenMint txs now).length_eq
  · intro s
    rw [existingOf_after, existingOf_after]
    constructor
    · rintro ⟨tx, htx, hs⟩
      exact ⟨tx, (mergedOf_after cache tokenMint txs now).mem_iff.mp htx, hs⟩
    · rintro ⟨tx, htx, hs⟩
      exact ⟨tx, (mergedOf_after cache tokenMint txs now).mem_iff.mpr htx, hs⟩

/-- C5: merging balances or transfers under one asset key leaves every entry
stored under any other key unchanged, in both cache stores. -/
theorem C5_merge_isolation (bc : BalCache) (tc : TxCache) (A B : String) (hAB : B ≠ A)
    (wd : List WalletBalanceRec) (txs : List Transfer) (now : Int) :
    (cacheWalletBalances bc A wd now).cache B = bc B ∧
    (cacheTransactions tc A txs now).cache B = tc B := by
  constructor
  · simp [cacheWalletBalances, hAB]
  · simp [cacheTransactions, hAB]

/-- C5 witness: with distinct keys tokA and tokB, merges under tokA leave the
tokB entries of both stores unchanged. -/
theorem C5_merge_isolation_witness :
    ("tokB" : String) ≠ "tokA" ∧
    (cacheWalletBalances (fun _ => none) "tokA" [c6w1] 100).cache "tokB" =
      (fun _ => (none : Option BalCacheEntry)) "tokB" ∧
    (cacheTransactions (fun _ => none) "tokA" [] 100).cache "tokB" =
      (fun _ => (none : Option TxCacheEntry)) "tokB" := by
  have hAB : ("tokB" : String) ≠ "tokA" := by decide
  have h := C5_merge_isolation (fun _ => none) (fun _ => none) "tokA" "tokB" hAB [c6w1] [] 100
  exact ⟨hAB, h.1, h.2⟩

/-! ## C6: balance merge lemmas -/

theorem getAssoc_cons {β : Type} (p : String × β) (rest : List (String × β)) (k : String) :
    getAssoc (p :: rest) k = if p.1 = k then some p.2 else getAssoc rest k := by
  unfold getAssoc
  by_cases hp : p.1 = k
  · rw [List.find?_cons_of_pos _ (by simp [hp]), if_pos hp]
    rfl
  · rw [List.find?_cons_of_neg _ (by simp [hp]), if_neg hp]

theorem getAssoc_map_replace {β : Type} (m : List (String × β)) (k k' : String) (v : β)
    (hk : k' ≠ k) :
    getAssoc (m.map (fun p => if p.1 = k then (k, v) else p)) k' = getAssoc m k' := by
  induction m with
  | nil => rfl
  | cons p rest ih =>
    rw [List.map_cons]
    by_cases hp : p.1 = k
    · rw [if_pos hp, getAssoc_cons, getAssoc_cons,
        if_neg (show ¬ ((k, v) : String × β).1 = k' from fun hc => hk hc.symm),
        if_neg (show ¬ p.1 = k' from fun hc => hk ((hc ▸ hp : k' = k)))]
      exact ih
    · rw [if_neg hp, getAssoc_cons, getAssoc_cons, ih]

theorem getAssoc_map_replace_hit {β : Type} (m : List (String × β)) (k : String) (v : β)
    (hany : m.any (fun p => p.1 = k) = true) :
    getAssoc (m.map (fun p => if p.1 = k then (k, v) else p)) k = some v := by
  induction m with
  | nil => simp at hany
  | cons p rest ih =>
    rw [List.map_cons]
    by_cases hp : p.1 = k
    · rw [if_pos hp, getAssoc_cons, if_pos rfl]
    · rw [if_neg hp, getAssoc_cons, if_neg hp]
      apply ih
      rw [List.any_cons] at hany
      rcases Bool.or_eq_true_iff.mp hany with hc | hc
      · exact absurd (of_decide_eq_true hc) hp
      · exact hc

theorem getAssoc_none_of_not_any {β : Type} (m : List (String × β)) (k : String)
    (hnone : m.any (fun p => p.1 = k) = false) :
    getAssoc m k = none := by
  unfold getAssoc
  rw [List.find?_eq_none.mpr]
  · rfl
  · intro p hp
    simp only [List.any_eq_false] at hnone
    simpa using hnone p hp

theorem getAssoc_setAssoc {β : Type} (m : List (String × β)) (k k' : String) (v : β) :
    getAssoc (setAssoc m k v) k' = if k' = k then some v else getAssoc m k' := by
  unfold setAssoc
  by_cases hany : m.any (fun p => p.1 = k) = true
  · rw [if_pos hany]
    by_cases hk : k' = k
    · subst hk
      rw [if_pos rfl]
      exact getAssoc_map_replace_hit m k' v hany
    · rw [if_neg hk]
      exact getAssoc_map_replace m k k' v hk
  · rw [if_neg hany]
    unfold getAssoc
    rw [List.find?_append]
    by_cases hk : k' = k
    · subst hk
      rw [if_pos rfl]
      have : m.find? (fun p => p.1 = k') = none := by
        have h0 : m.any (fun p => p.1 = k') = false := by
          revert hany
          cases m.any (fun p => p.1 = k') <;> simp
        have := getAssoc_none_of_not_any m k' h0
        unfold getAssoc at this
        cases hf : m.find? (fun p => p.1 = k')
        · rfl
        · rw [hf] at this
          simp at this
      rw [this]
      simp [List.find?]
    · rw [if_neg hk]
      have : ([(k, v)] : List (String × β)).find? (fun p => p.1 = k') = none := by
        apply List.find?_eq_none.mpr
        intro p hp
        simp only [List.mem_singleton] at hp
        subst hp
        simp only [decide_eq_true_eq]
        exact fun hc => hk hc.symm
      rw [this]
      simp

theorem getAssoc_mem {β : Type} (m : List (String × β)) (k : String) (v : β)
    (h : getAssoc m k = some v) : v ∈ m.map (·.2) := by
  unfold getAssoc at h
  cases hf : m.find? (fun p => p.1 = k) with
  | none => rw [hf] at h; simp at h
  | some p =>
    rw [hf] at h
    simp only [Option.map_some', Option.some.injEq] at h
    rw [← h]
    exact List.mem_map_of_mem _ (List.mem_of_find?_eq_some hf)

theorem foldl_balanceMergeStep_notin (now : Int) (ws : List WalletBalanceRec)
    (m : List (String × BalanceEntry)) (a : String) (ha : a ∉ ws.map (·.address)) :
    getAssoc (ws.foldl (balanceMergeStep now) m) a = getAssoc m a := by
  induction ws generalizing m with
  | nil => rfl
  | cons w rest ih =>
    simp only [List.map_cons, List.mem_cons, not_or] at ha
    rw [List.foldl_cons, ih _ ha.2, balanceMergeStep, getAssoc_setAssoc, if_neg ha.1]

theorem foldl_balanceMergeStep_nodup (now : Int) (ws : List WalletBalanceRec)
    (m : List (String × BalanceEntry)) (w : WalletBalanceRec)
    (hnodup : (ws.map (·.address)).Nodup) (hw : w ∈ ws) :
    getAssoc (ws.foldl (balanceMergeStep now) m) w.address =
      some (mergeBalanceEntry (getAssoc m w.address) w now) := by
  induction ws generalizing m with
  | nil => exact absurd hw (List.not_mem_nil w)
  | cons x rest ih =>
    simp only [List.map_cons, List.nodup_cons] at hnodup
    rcases List.mem_cons.mp hw with h | h
    · subst h
      rw [List.foldl_cons,
        foldl_balanceMergeStep_notin now rest _ w.address hnodup.1,
        balanceMergeStep, getAssoc_setAssoc, if_pos rfl]
    · have hxa : x.address ≠ w.address := by
        intro hc
        exact hnodup.1 (hc ▸ List.mem_map_of_mem _ h)
      rw [List.foldl_cons, ih _ hnodup.2 h, balanceMergeStep, getAssoc_setAssoc,
        if_neg (fun hc => hxa hc.symm)]

/-- C6 (amended): when the incoming batch holds pairwise distinct addresses,
each incoming record is stored under its address with previousBalance equal to
the uiBalance of the entry present before the merge (none when absent), a
history of at most ten entries ending with the merged amount, firstSeen
preserved from the existing entry or set to the merge time, and lastUpdated set
to the merge time. -/
theorem C6_balance_merge (cache : BalCache) (tokenMint : String)
    (walletData : List WalletBalanceRec) (now : Int) (w : WalletBalanceRec)
    (hnodup : (walletData.map (·.address)).Nodup) (hw : w ∈ walletData) :
    ∃ e,
      getAssoc (walletData.foldl (balanceMergeStep now)
        (initialBalanceMap (((cache tokenMint).map (·.wallets)).getD [])))
        w.address = some e ∧
      e ∈ (cacheWalletBalances cache tokenMint walletData now).wallets ∧
      e.info = w ∧
      e.previousBalance =
        (getAssoc (initialBalanceMap (((cache tokenMint).map (·.wallets)).getD []))
          w.address).map (fun p => p.info.uiBalance) ∧
      e.balanceHistory.length ≤ 10 ∧
      e.balanceHistory.getLast? = some (w.uiBalance, now) ∧
      e.firstSeen =
        ((getAssoc (initialBalanceMap (((cache tokenMint).map (·.wallets)).getD []))
          w.address).map (fun p => p.firstSeen)).getD now ∧
      e.lastUpdated = now := by
  have hga := foldl_balanceMergeStep_nodup now walletData
    (initialBalanceMap (((cache tokenMint).map (·.wallets)).getD [])) w hnodup hw
  refine ⟨mergeBalanceEntry
    (getAssoc (initialBalanceMap (((cache tokenMint).map (·.wallets)).getD [])) w.address)
    w now, hga, ?_, ?_, ?_, ?_, ?_, ?_, ?_⟩
  · have hmem := getAssoc_mem _ _ _ hga
    simpa [cacheWalletBalances] using hmem
  · rfl
  · rfl
  · simp only [mergeBalanceEntry, takeLast, List.length_append, List.length_drop,
      List.length_cons, List.length_nil]
    omega
  · show (takeLast 9 (((getAssoc (initialBalanceMap
        (((cache tokenMint).map (·.wallets)).getD [])) w.address).map
        (fun p => p.balanceHistory)).getD []) ++ [(w.uiBalance, now)]).getLast? =
      some (w.uiBalance, now)
    simp
  · rfl
  · rfl

/-- C6 counterexample: merging a batch holding the same address twice, with
uiBalances 7 then 9, over a cache whose stored entry has uiBalance 5: the claim
as stated requires the stored previous-balance to equal the pre-merge uiBalance
5, but the final stored entry carries previousBalance 7, the uiBalance of the
earlier duplicate within the batch. -/
theorem C6_balance_merge_counterexample :
    ((cacheWalletBalances c6cache "tokA" [c6w1, c6w2] 100).wallets.find?
      (fun e => e.info.address == "a1")).map (fun e => e.previousBalance) =
        some (some 7) ∧
    (getAssoc (initialBalanceMap (((c6cache "tokA").map (·.wallets)).getD []))
      "a1").map (fun p => p.info.uiBalance) = some 5 ∧
    ¬ (some (7 : ℚ) = some (5 : ℚ)) := by
  refine ⟨?_, ?_, by norm_num⟩
  · simp [cacheWalletBalances, initialBalanceMap, balanceMergeStep, mergeBalanceEntry,
      setAssoc, getAssoc, c6cache, c6Prev, c6w1, c6w2, takeLast, List.find?]
  · simp [initialBalanceMap, setAssoc, getAssoc, c6cache, c6Prev, List.find?]

/-- C6 witness: the amended claim applied to a single record batch over the
same cache: the stored entry keeps previousBalance 5 from the pre-merge entry. -/
theorem C6_balance_merge_witness :
    ([c6w1].map (fun w => w.address)).Nodup ∧
    c6w1 ∈ [c6w1] ∧
    (∃ e,
      getAssoc ([c6w1].foldl (balanceMergeStep 100)
        (initialBalanceMap (((c6cache "tokA").map (·.wallets)).getD [])))
        c6w1.address = some e ∧
      e ∈ (cacheWalletBalances c6cache "tokA" [c6w1] 100).wallets ∧
      e.info = c6w1 ∧
      e.previousBalance =
        (getAssoc (initialBalanceMap (((c6cache "tokA").map (·.wallets)).getD []))
          c6w1.address).map (fun p => p.info.uiBalance) ∧
      e.balanceHistory.length ≤ 10 ∧
      e.balanceHistory.getLast? = some (c6w1.uiBalance, 100) ∧
      e.firstSeen =
        ((getAssoc (initialBalanceMap (((c6cache "tokA").map (·.wallets)).getD []))
          c6w1.address).map (fun p => p.firstSeen)).getD 100 ∧
      e.lastUpdated = 100) := by
  refine ⟨by simp, List.mem_singleton.mpr rfl, ?_⟩
  exact C6_balance_merge c6cache "tokA" [c6w1] 100 c6w1 (by simp)
    (List.mem_singleton.mpr rfl)

/-! ## C7: batched balance fetch -/

theorem batchLoop_eq_map_aux (now : Int) (f : String → DasResult) (bs : Nat)
    (hbs : 1 ≤ bs) :
    ∀ n (ws : List WatchedWallet), ws.length ≤ n →
      batchLoop now f bs ws = ws.map (heliusResult now f) := by
  intro n
  induction n with
  | zero =>
    intro ws hws
    rw [List.eq_nil_of_length_eq_zero (Nat.le_zero.mp hws)]
    simp [batchLoop]
  | succ n ih =>
    intro ws hws
    cases ws with
    | nil => simp [batchLoop]
    | cons w rest =>
      rw [batchLoop]
      have hlen : (rest.drop (bs - 1)).length ≤ n := by
        simp only [List.length_drop]
        simp only [List.length_cons] at hws
        omega
      rw [ih (rest.drop (bs - 1)) hlen]
      have htake : (w :: rest).take bs = w :: rest.take (bs - 1) := by
        cases bs with
        | zero => omega
        | succ m => simp
      rw [htake]
      simp only [fetchBalancesBatchHelius, List.map_cons, List.cons_append,
        List.map_append]
      rw [← List.map_append, List.take_append_drop]

theorem batchLoop_eq_map (now : Int) (f : String → DasResult) (bs : Nat)
    (hbs : 1 ≤ bs) (ws : List WatchedWallet) :
    batchLoop now f bs ws = ws.map (heliusResult now f) :=
  batchLoop_eq_map_aux now f bs hbs ws.length ws (Nat.le_refl _)

theorem heliusResult_congr (now : Int) (f g : String → DasResult) (w : WatchedWallet)
    (h : f w.address = g w.address) : heliusResult now f w = heliusResult now g w := by
  unfold heliusResult
  rw [h]

/-- C7: the batched balance fetch returns exactly one result per input account
in input order; a failing account yields a result carrying an error field with
address preserved and zero balance, and the result of every account depends
only on the oracle answer for that same account, so one failure neither
prevents nor alters the other results. -/
theorem C7_batch_results (hasApiKey : Bool) (now : Int) (f g : String → DasResult)
    (wallets : List WatchedWallet) :
    (batchGetBalances hasApiKey now f wallets).length = wallets.length ∧
    (∀ i : Nat, (batchGetBalances hasApiKey now f wallets)[i]? =
      (wallets[i]?).map (heliusResult now f)) ∧
    (∀ w : WatchedWallet, ∀ msg : String, f w.address = DasResult.failure msg →
      (heliusResult now f w).error = some msg ∧
      (heliusResult now f w).address = w.address ∧
      (heliusResult now f w).uiBalance = 0) ∧
    (∀ j : Nat,
      (wallets[j]?).map (fun w => f w.address) = (wallets[j]?).map (fun w => g w.address) →
      (batchGetBalances hasApiKey now f wallets)[j]? =
        (batchGetBalances hasApiKey now g wallets)[j]?) := by
  have hbs : 1 ≤ (if hasApiKey then 5 else 3) := by
    cases hasApiKey <;> simp
  have hf : batchGetBalances hasApiKey now f wallets = wallets.map (heliusResult now f) :=
    batchLoop_eq_map now f _ hbs wallets
  have hg : batchGetBalances hasApiKey now g wallets = wallets.map (heliusResult now g) :=
    batchLoop_eq_map now g _ hbs wallets
  refine ⟨?_, ?_, ?_, ?_⟩
  · rw [hf, List.length_map]
  · intro i
    rw [hf, List.getElem?_map]
  · intro w msg hmsg
    unfold heliusResult
    rw [hmsg]
    exact ⟨rfl, rfl, rfl⟩
  · intro j hj
    rw [hf, hg, List.getElem?_map, List.getElem?_map]
    cases hwj : wallets[j]? with
    | none => rfl
    | some w =>
      rw [hwj] at hj
      simp only [Option.map_some', Option.some.injEq] at hj
      simp only [Option.map_some', Option.some.injEq]
      exact heliusResult_congr now f g w hj

/-- C7 witness: a two wallet batch with the oracle failing on the second wallet
only: two results in order, the second carrying the error, and the first result
agreeing with the same batch under an oracle that differs only on the failing
wallet. -/
theorem C7_batch_results_witness :
    (batchGetBalances true 100 c7f [c7wA, c7wB]).length = 2 ∧
    c7f c7wB.address = DasResult.failure "boom" ∧
    (heliusResult 100 c7f c7wB).error = some "boom" ∧
    (heliusResult 100 c7f c7wB).address = c7wB.address ∧
    (batchGetBalances true 100 c7f [c7wA, c7wB])[0]? =
      (batchGetBalances true 100 c7g [c7wA, c7wB])[0]? := by
  have h := C7_batch_results true 100 c7f c7g [c7wA, c7wB]
  have hmsg : c7f c7wB.address = DasResult.failure "boom" := rfl
  have herr := h.2.2.1 c7wB "boom" hmsg
  refine ⟨h.1, hmsg, herr.1, herr.2.1, ?_⟩
  apply h.2.2.2 0
  rfl

/-! ## C9: watch set uniqueness -/

/-- C9 (amended): when the previous watch set and the imported batch each hold
pairwise distinct case normalized addresses, the add operation keeps the watch
set pairwise distinct after case normalization, admitting only wallets whose
normalized address is not already present. -/
theorem C9_addWallets_nodup (prev newWallets : List WatchedWallet)
    (hprev : (prev.map (fun w => jsLower w.address)).Nodup)
    (hnew : (newWallets.map (fun w => jsLower w.address)).Nodup) :
    ((addWallets prev newWallets).map (fun w => jsLower w.address)).Nodup := by
  unfold addWallets
  rw [List.map_append]
  apply hprev.append
  · exact hnew.sublist ((List.filter_sublist _).map _)
  · intro a ha hb
    rcases List.mem_map.mp hb with ⟨w, hwmem, hwa⟩
    rcases List.mem_filter.mp hwmem with ⟨_, hpred⟩
    have hnc : ¬ ((prev.map (fun w => jsLower w.address)).contains
        (jsLower w.address) = true) := by
      simpa using hpred
    exact hnc (contains_of_mem_str (hwa ▸ ha))

/-- C9 counterexample: importing one batch with two wallets whose addresses
differ only by case into an empty watch set admits both, so the resulting watch
set is not unique up to case normalization. -/
theorem C9_addWallets_counterexample :
    ¬ ((addWallets [] [c9wUpper, c9wLower]).map (fun w => jsLower w.address)).Nodup := by
  decide

/-- C9 witness: adding a wallet whose normalized address is already watched
keeps the set distinct. -/
theorem C9_addWallets_nodup_witness :
    (([c9wLower].map (fun w => jsLower w.address)).Nodup) ∧
    (([c9wUpper].map (fun w => jsLower w.address)).Nodup) ∧
    ((addWallets [c9wLower] [c9wUpper]).map (fun w => jsLower w.address)).Nodup := by
  refine ⟨by simp, by simp, ?_⟩
  exact C9_addWallets_nodup [c9wLower] [c9wUpper] (by simp) (by simp)

/-! ## C8 and C10: transaction fetch loop lemmas -/

theorem mem_of_contains_str {l : List String} {s : String}
    (h : l.contains s = true) : s ∈ l := by
  rcases List.contains_iff_exists_mem_beq.mp h with ⟨a, ha, hbeq⟩
  simp only [beq_iff_eq] at hbeq
  rw [hbeq]
  exact ha

theorem mem_of_mem_chunksOf {α : Type} (n : Nat) :
    ∀ (fuel : Nat) (l : List α), l.length ≤ fuel →
      ∀ c ∈ chunksOf n l, ∀ x ∈ c, x ∈ l := by
  intro fuel
  induction fuel with
  | zero =>
    intro l hl c hc
    rw [List.eq_nil_of_length_eq_zero (Nat.le_zero.mp hl)] at hc
    simp [chunksOf] at hc
  | succ m ih =>
    intro l hl c hc x hx
    cases l with
    | nil => simp [chunksOf] at hc
    | cons a tl =>
      rw [chunksOf] at hc
      rcases List.mem_cons.mp hc with h | h
      · subst h
        rcases List.mem_cons.mp hx with h' | h'
        · rw [h']
          exact List.mem_cons_self a tl
        · exact List.mem_cons_of_mem _ (List.mem_of_mem_take h')
      · have hxin := ih (tl.drop (n - 1))
          (by simp only [List.length_drop]; simp only [List.length_cons] at hl; omega)
          c h x hx
        exact List.mem_cons_of_mem _ (List.mem_of_mem_drop hxin)

theorem processResults_fetched (cfg : FetchConfig) (acc : FetchAcc)
    (sigs : List SigInfo) :
    (processResults cfg acc sigs).1.fetched = acc.fetched := by
  induction sigs generalizing acc with
  | nil => rfl
  | cons s tl ih =>
    rw [processResults]
    cases cfg.getTx s.signature with
    | none =>
      dsimp only []
      exact ih acc
    | some tx =>
      dsimp only []
      cases parseTokenTransfer tx cfg.walletAddress cfg.tokenMint with
      | none =>
        dsimp only []
        exact ih acc
      | some tt =>
        dsimp only []
        split_ifs with h
        · rfl
        · exact ih _

theorem processResults_trans_inv (cfg : FetchConfig) (P : Transfer → Prop)
    (sigs : List SigInfo) :
    ∀ acc : FetchAcc, (∀ s ∈ sigs, ∀ tt, P (mkTransfer cfg s tt)) →
      (∀ tx ∈ acc.transactions, P tx) →
      ∀ tx ∈ (processResults cfg acc sigs).1.transactions, P tx := by
  induction sigs with
  | nil => intro acc _ hacc; exact hacc
  | cons s tl ih =>
    intro acc hsig hacc
    rw [processResults]
    cases cfg.getTx s.signature with
    | none =>
      dsimp only []
      exact ih acc (fun s hs => hsig s (List.mem_cons_of_mem _ hs)) hacc
    | some tx =>
      dsimp only []
      cases parseTokenTransfer tx cfg.walletAddress cfg.tokenMint with
      | none =>
        dsimp only []
        exact ih acc (fun s hs => hsig s (List.mem_cons_of_mem _ hs)) hacc
      | some tt =>
        dsimp only []
        have hacc' : ∀ tx ∈ acc.transactions ++ [mkTransfer cfg s tt], P tx := by
          intro tx htx
          rcases List.mem_append.mp htx with h | h
          · exact hacc tx h
          · rw [List.mem_singleton.mp h]
            exact hsig s (List.mem_cons_self s tl) tt
        split_ifs with h
        · exact hacc'
        · exact ih _ (fun s hs => hsig s (List.mem_cons_of_mem _ hs)) hacc'

theorem processChunks_inv (cfg : FetchConfig) (P : Transfer → Prop) (Q : String → Prop)
    (chunks : List (List SigInfo)) :
    ∀ acc : FetchAcc,
      (∀ c ∈ chunks, ∀ s ∈ c, guardOK cfg s → (∀ tt, P (mkTransfer cfg s tt)) ∧ Q s.signature) →
      (∀ tx ∈ acc.transactions, P tx) →
      (∀ f ∈ acc.fetched, Q f) →
      (∀ tx ∈ (processChunks cfg acc chunks).1.transactions, P tx) ∧
      (∀ f ∈ (processChunks cfg acc chunks).1.fetched, Q f) := by
  induction chunks with
  | nil => intro acc _ hat haf; exact ⟨hat, haf⟩
  | cons chunk rest ih =>
    intro acc hch hat haf
    rw [processChunks]
    have hrest : ∀ c ∈ rest, ∀ s ∈ c, guardOK cfg s →
        (∀ tt, P (mkTransfer cfg s tt)) ∧ Q s.signature :=
      fun c hc => hch c (List.mem_cons_of_mem _ hc)
    have hbatch : ∀ s ∈ filteredBatchOf cfg chunk,
        (∀ tt, P (mkTransfer cfg s tt)) ∧ Q s.signature := by
      intro s hs
      unfold filteredBatchOf at hs
      cases hk : cfg.knownSignatures with
      | none =>
        rw [hk] at hs
        exact hch chunk (List.mem_cons_self _ _) s hs (by rw [guardOK, hk]; trivial)
      | some known =>
        rw [hk] at hs
        rcases List.mem_filter.mp hs with ⟨hmem, hpred⟩
        refine hch chunk (List.mem_cons_self _ _) s hmem ?_
        rw [guardOK, hk]
        simpa using hpred
    dsimp only []
    split_ifs with hempty
    · exact ih acc hrest hat haf
    · have haf₁ : ∀ f ∈ acc.fetched ++ (filteredBatchOf cfg chunk).map (·.signature), Q f := by
        intro f hf
        rcases List.mem_append.mp hf with h | h
        · exact haf f h
        · rcases List.mem_map.mp h with ⟨s, hs, hfs⟩
          rw [← hfs]
          exact (hbatch s hs).2
      have hpr := processResults_trans_inv cfg P (filteredBatchOf cfg chunk)
        { acc with fetched := acc.fetched ++ (filteredBatchOf cfg chunk).map (·.signature) }
        (fun s hs tt => (hbatch s hs).1 tt) hat
      have hprf := processResults_fetched cfg
        { acc with fetched := acc.fetched ++ (filteredBatchOf cfg chunk).map (·.signature) }
        (filteredBatchOf cfg chunk)
      cases hres : processResults cfg
        { acc with fetched := acc.fetched ++ (filteredBatchOf cfg chunk).map (·.signature) }
        (filteredBatchOf cfg chunk) with
      | mk acc₂ early =>
        rw [hres] at hpr hprf
        dsimp only [] at hpr hprf
        cases early with
        | true =>
          dsimp only []
          refine ⟨hpr, ?_⟩
          rw [hprf]
          exact haf₁
        | false =>
          dsimp only []
          exact ih acc₂ hrest hpr (by rw [hprf]; exact haf₁)

theorem getLast_pairwise_le {α : Type} (f : α → Int) :
    ∀ (l : List α), l.Pairwise (fun a b => f b ≤ f a) →
      ∀ s ∈ l, ∀ last, l.getLast? = some last → f last ≤ f s := by
  intro l
  induction l with
  | nil => intro _ s hs; exact absurd hs (List.not_mem_nil s)
  | cons a t ih =>
    intro hp s hs last hlast
    rcases List.pairwise_cons.mp hp with ⟨ha, ht⟩
    cases t with
    | nil =>
      have : a = last := by simpa using hlast
      rcases List.mem_singleton.mp hs with rfl
      rw [← this]
    | cons b t₂ =>
      have hlast₂ : (b :: t₂).getLast? = some last := by
        rw [List.getLast?_cons_cons] at hlast; exact hlast
      rcases List.mem_cons.mp hs with rfl | hs₂
      · exact ha last (List.mem_of_mem_getLast? hlast₂)
      · exact ih ht s hs₂ last hlast₂

theorem sinceFilter_time (cfg : FetchConfig) (T : Int) (hT : cfg.sinceTimestamp = some T)
    (page : List SigInfo) (hdesc : pageDescNonzero page) (procSigs : List SigInfo)
    (h : sinceFilter cfg page = SinceCheck.lastBatch procSigs ∨
         sinceFilter cfg page = SinceCheck.keepGoing procSigs) :
    ∀ s ∈ procSigs, T ≤ (s.blockTime.getD 0) * 1000 ∧ s ∈ page := by
  rcases hdesc with ⟨hnz, hpw⟩
  rw [sinceFilter, hT] at h
  dsimp only [] at h
  by_cases hc : truthyInt ((page.getLast?.map (·.blockTime)).getD none) = true ∧
      (((page.getLast?.map (·.blockTime)).getD none).getD 0) * 1000 < T
  · rw [if_pos hc] at h
    by_cases hz : (page.filter
        (fun sig => decide (truthyInt sig.blockTime = true ∧
          T ≤ (sig.blockTime.getD 0) * 1000))).length = 0
    · rw [if_pos hz] at h
      rcases h with h | h <;> exact absurd h (by simp)
    · rw [if_neg hz] at h
      have hp : procSigs = page.filter
          (fun sig => decide (truthyInt sig.blockTime = true ∧
            T ≤ (sig.blockTime.getD 0) * 1000)) := by
        rcases h with h | h
        · exact (SinceCheck.lastBatch.injEq _ _).mp h.symm
        · exact absurd h (by simp)
      intro s hs
      rw [hp] at hs
      rcases List.mem_filter.mp hs with ⟨hmem, hpred⟩
      refine ⟨?_, hmem⟩
      exact (of_decide_eq_true hpred).2
  · rw [if_neg hc] at h
    have hp : procSigs = page := by
      rcases h with h | h
      · exact absurd h (by simp)
      · exact (SinceCheck.keepGoing.injEq _ _).mp h.symm
    intro s hs
    rw [hp] at hs
    refine ⟨?_, hs⟩
    have hne : page ≠ [] := by rintro rfl; exact absurd hs (List.not_mem_nil s)
    have hlast : page.getLast? = some (page.getLast hne) := List.getLast?_eq_getLast page hne
    rcases hnz _ (List.getLast_mem hne) with ⟨tl, htl, htlnz⟩
    have hold : ((page.getLast?.map (·.blockTime)).getD none) = some tl := by
      rw [hlast]; simp [htl]
    have htruthy : truthyInt ((page.getLast?.map (·.blockTime)).getD none) = true := by
      rw [hold]; simp [truthyInt, htlnz]
    have hge : T ≤ tl * 1000 := by
      by_contra hlt
      exact hc ⟨htruthy, by rw [hold]; dsimp only [Option.getD]; omega⟩
    have hle : tl ≤ s.blockTime.getD 0 := by
      have := getLast_pairwise_le (fun x => x.blockTime.getD 0) page hpw s hs
        (page.getLast hne) hlast
      dsimp only [] at this
      rw [htl] at this
      simpa using this
    omega

theorem pagesLoop_inv (cfg : FetchConfig) (P : Transfer → Prop) (Q : String → Prop)
    (pages : List (List SigInfo)) :
    ∀ (n : Nat) (acc : FetchAcc),
      (∀ page ∈ pages, ∀ procSigs,
        (sinceFilter cfg page = SinceCheck.lastBatch procSigs ∨
         sinceFilter cfg page = SinceCheck.keepGoing procSigs) →
        ∀ s ∈ procSigs, guardOK cfg s → (∀ tt, P (mkTransfer cfg s tt)) ∧ Q s.signature) →
      (∀ tx ∈ acc.transactions, P tx) →
      (∀ f ∈ acc.fetched, Q f) →
      (∀ tx ∈ (pagesLoop cfg pages n acc).transactions, P tx) ∧
      (∀ f ∈ (pagesLoop cfg pages n acc).fetched, Q f) := by
  induction pages with
  | nil => intro n acc _ hat haf; exact ⟨hat, haf⟩
  | cons page rest ih =>
    intro n acc hpg hat haf
    rw [pagesLoop]
    have hrest : ∀ p ∈ rest, ∀ procSigs,
        (sinceFilter cfg p = SinceCheck.lastBatch procSigs ∨
         sinceFilter cfg p = SinceCheck.keepGoing procSigs) →
        ∀ s ∈ procSigs, guardOK cfg s → (∀ tt, P (mkTransfer cfg s tt)) ∧ Q s.signature :=
      fun p hp => hpg p (List.mem_cons_of_mem _ hp)
    by_cases h1 : ¬ (n < cfg.maxPages ∨ cfg.deepFetch = true)
    · rw [if_pos h1]
      exact ⟨hat, haf⟩
    · rw [if_neg h1]
      by_cases h2 : page.length = 0
      · rw [if_pos h2]
        exact ⟨hat, haf⟩
      · rw [if_neg h2]
        dsimp only []
        cases hsf : sinceFilter cfg page with
        | stop => exact ⟨hat, haf⟩
        | lastBatch procSigs =>
          dsimp only []
          have hchunks : ∀ c ∈ chunksOf PARALLEL_BATCH_SIZE procSigs, ∀ s ∈ c,
              guardOK cfg s → (∀ tt, P (mkTransfer cfg s tt)) ∧ Q s.signature := by
            intro c hc s hs hg
            exact hpg page (List.mem_cons_self _ _) procSigs (Or.inl hsf) s
              (mem_of_mem_chunksOf PARALLEL_BATCH_SIZE procSigs.length procSigs le_rfl c hc s hs) hg
          exact processChunks_inv cfg P Q _ acc hchunks hat haf
        | keepGoing procSigs =>
          dsimp only []
          have hchunks : ∀ c ∈ chunksOf PARALLEL_BATCH_SIZE procSigs, ∀ s ∈ c,
              guardOK cfg s → (∀ tt, P (mkTransfer cfg s tt)) ∧ Q s.signature := by
            intro c hc s hs hg
            exact hpg page (List.mem_cons_self _ _) procSigs (Or.inr hsf) s
              (mem_of_mem_chunksOf PARALLEL_BATCH_SIZE procSigs.length procSigs le_rfl c hc s hs) hg
          have hmain := processChunks_inv cfg P Q (chunksOf PARALLEL_BATCH_SIZE procSigs)
            acc hchunks hat haf
          cases hpc : processChunks cfg acc (chunksOf PARALLEL_BATCH_SIZE procSigs) with
          | mk acc₃ early =>
            rw [hpc] at hmain
            dsimp only [] at hmain
            cases early with
            | true =>
              dsimp only []
              exact hmain
            | false =>
              dsimp only []
              split_ifs with h3 h4
              · exact hmain
              · exact hmain
              · exact ih (n + 1) acc₃ hrest hmain.1 hmain.2

/-! ## C8: incremental fetch cutoff -/

/-- C8: for a fetch with a since timestamp T and a known signature set K, under
the precondition that every provider page is newest first with nonzero block
times, no returned transfer carries a timestamp below T, no returned transfer
has a signature in K, and no signature in K ever has its details fetched. -/
theorem C8_incremental_cutoff (cfg : FetchConfig) (pages : List (List SigInfo))
    (T : Int) (K : List String)
    (hT : cfg.sinceTimestamp = some T)
    (hK : cfg.knownSignatures = some K)
    (hdesc : ∀ page ∈ pages, pageDescNonzero page) :
    (∀ tx ∈ getWalletTransactions cfg pages,
        (∀ ts, tx.timestamp = some ts → T ≤ ts) ∧ tx.signature ∉ K) ∧
    (∀ f ∈ (getWalletTransactionsAux cfg pages).fetched, f ∉ K) := by
  rw [getWalletTransactions]
  rw [getWalletTransactionsAux]
  split_ifs with hv
  case neg => constructor <;> intro x hx <;> exact absurd hx (List.not_mem_nil _)
  case pos =>
    refine pagesLoop_inv cfg
        (fun tx => (∀ ts, tx.timestamp = some ts → T ≤ ts) ∧ tx.signature ∉ K)
      (fun f => f ∉ K) pages 0 _ ?_ ?_ ?_
    · intro page hpage procSigs hsf s hs hg
      have htime := sinceFilter_time cfg T hT page (hdesc page hpage) procSigs hsf s hs
      have hsig : s.signature ∉ K := by
        intro hmem
        rw [guardOK, hK] at hg
        exact hg (contains_of_mem_str hmem)
      refine ⟨?_, hsig⟩
      intro tt
      refine ⟨?_, hsig⟩
      intro ts hts
      rcases (hdesc page hpage).1 s htime.2 with ⟨t, ht, htnz⟩
      rw [mkTransfer] at hts
      dsimp only [] at hts
      rw [ht] at hts
      have htr : truthyInt (some t) = true := by simp [truthyInt, htnz]
      rw [if_pos htr] at hts
      dsimp only [Option.map] at hts
      have hts₂ : t * 1000 = ts := by
        have := Option.some.injEq (t * 1000) ts ▸ hts
        simpa using hts
      have hT₂ := htime.1
      rw [ht] at hT₂
      dsimp only [Option.getD] at hT₂
      omega
    · intro tx htx
      exact absurd htx (List.not_mem_nil _)
    · intro f hf
      exact absurd hf (List.not_mem_nil _)

/-- C8 witness: a concrete incremental fetch with since bound 160000 ms and one
known signature over one descending page satisfies the cutoff guarantees. -/
theorem C8_incremental_cutoff_witness :
    (∀ tx ∈ getWalletTransactions c8cfg c8pages,
        (∀ ts, tx.timestamp = some ts → (160000 : Int) ≤ ts) ∧ tx.signature ∉ ["kx"]) ∧
    (∀ f ∈ (getWalletTransactionsAux c8cfg c8pages).fetched, f ∉ ["kx"]) :=
  C8_incremental_cutoff c8cfg c8pages 160000 ["kx"] rfl rfl (by
    intro page hp
    simp only [c8pages, List.mem_singleton] at hp
    subst hp
    constructor
    · intro s hs
      rcases List.mem_cons.mp hs with rfl | hs₂
      · exact ⟨200, rfl, by decide⟩
      · rcases List.mem_singleton.mp hs₂ with rfl
        exact ⟨150, rfl, by decide⟩
    · refine List.Pairwise.cons ?_ (List.pairwise_singleton _ _)
      intro b hb
      rcases List.mem_singleton.mp hb with rfl
      decide)

theorem processResults_count (cfg : FetchConfig) (hdf : cfg.deepFetch = false) :
    ∀ (batch : List SigInfo) (acc : FetchAcc),
      acc.transactions.length < cfg.targetCount →
      ((processResults cfg acc batch).2 = true →
        (processResults cfg acc batch).1.transactions.length ≤ cfg.targetCount) ∧
      ((processResults cfg acc batch).2 = false →
        (processResults cfg acc batch).1.transactions.length < cfg.targetCount) := by
  intro batch
  induction batch with
  | nil =>
    intro acc hlt
    rw [processResults]
    exact ⟨fun h => absurd h (by simp), fun _ => hlt⟩
  | cons sig rest ih =>
    intro acc hlt
    rw [processResults]
    cases hg : cfg.getTx sig.signature with
    | none =>
      dsimp only []
      exact ih acc hlt
    | some tx =>
      dsimp only []
      cases hp : parseTokenTransfer tx cfg.walletAddress cfg.tokenMint with
      | none =>
        dsimp only []
        exact ih acc hlt
      | some tt =>
        dsimp only []
        by_cases hc : ¬ cfg.deepFetch = true ∧
            cfg.targetCount ≤ (acc.transactions ++ [mkTransfer cfg sig tt]).length
        · rw [if_pos hc]
          constructor
          · intro _
            simp only [List.length_append, List.length_cons, List.length_nil]
            omega
          · intro h
            exact absurd h (by simp)
        · rw [if_neg hc]
          refine ih _ ?_
          have hle : ¬ cfg.targetCount ≤ (acc.transactions ++ [mkTransfer cfg sig tt]).length := by
            intro h
            exact hc ⟨by simp [hdf], h⟩
          simp only [List.length_append, List.length_cons, List.length_nil] at hle ⊢
          omega

theorem processChunks_count (cfg : FetchConfig) (hdf : cfg.deepFetch = false)
    (chunks : List (List SigInfo)) :
    ∀ (acc : FetchAcc), acc.transactions.length < cfg.targetCount →
      ((processChunks cfg acc chunks).2 = true →
        (processChunks cfg acc chunks).1.transactions.length ≤ cfg.targetCount) ∧
      ((processChunks cfg acc chunks).2 = false →
        (processChunks cfg acc chunks).1.transactions.length < cfg.targetCount) := by
  induction chunks with
  | nil =>
    intro acc hlt
    rw [processChunks]
    exact ⟨fun h => absurd h (by simp), fun _ => hlt⟩
  | cons chunk rest ih =>
    intro acc hlt
    rw [processChunks]
    dsimp only []
    split_ifs with hempty
    · exact ih acc hlt
    · have hpr := processResults_count cfg hdf (filteredBatchOf cfg chunk)
        { acc with fetched := acc.fetched ++ (filteredBatchOf cfg chunk).map (·.signature) }
        hlt
      cases hres : processResults cfg
          { acc with fetched := acc.fetched ++ (filteredBatchOf cfg chunk).map (·.signature) }
          (filteredBatchOf cfg chunk) with
      | mk acc₂ early =>
        rw [hres] at hpr
        dsimp only [] at hpr
        cases early with
        | true =>
          dsimp only []
          exact ⟨fun _ => hpr.1 rfl, fun h => absurd h (by simp)⟩
        | false =>
          dsimp only []
          exact ih acc₂ (hpr.2 rfl)

theorem pagesLoop_count (cfg : FetchConfig) (hdf : cfg.deepFetch = false)
    (pages : List (List SigInfo)) :
    ∀ (n : Nat) (acc : FetchAcc), acc.transactions.length < cfg.targetCount →
      (pagesLoop cfg pages n acc).transactions.length ≤ cfg.targetCount := by
  induction pages with
  | nil =>
    intro n acc hlt
    rw [pagesLoop]
    omega
  | cons page rest ih =>
    intro n acc hlt
    rw [pagesLoop]
    by_cases h1 : ¬ (n < cfg.maxPages ∨ cfg.deepFetch = true)
    · rw [if_pos h1]
      omega
    · rw [if_neg h1]
      by_cases h2 : page.length = 0
      · rw [if_pos h2]
        omega
      · rw [if_neg h2]
        dsimp only []
        cases hsf : sinceFilter cfg page with
        | stop =>
          dsimp only []
          omega
        | lastBatch procSigs =>
          dsimp only []
          have hpc := processChunks_count cfg hdf (chunksOf PARALLEL_BATCH_SIZE procSigs) acc hlt
          cases hres : processChunks cfg acc (chunksOf PARALLEL_BATCH_SIZE procSigs) with
          | mk acc₂ early =>
            rw [hres] at hpc
            dsimp only [] at hpc ⊢
            cases early with
            | true => exact hpc.1 rfl
            | false => exact le_of_lt (hpc.2 rfl)
        | keepGoing procSigs =>
          dsimp only []
          have hpc := processChunks_count cfg hdf (chunksOf PARALLEL_BATCH_SIZE procSigs) acc hlt
          cases hres : processChunks cfg acc (chunksOf PARALLEL_BATCH_SIZE procSigs) with
          | mk acc₂ early =>
            rw [hres] at hpc
            dsimp only [] at hpc
            cases early with
            | true =>
              dsimp only []
              exact hpc.1 rfl
            | false =>
              dsimp only []
              split_ifs with h3 h4
              · exact le_of_lt (hpc.2 rfl)
              · exact le_of_lt (hpc.2 rfl)
              · exact ih (n + 1) acc₂ (hpc.2 rfl)

/-! ## C10: early exit at targetCount -/

/-- C10 (amended): with deepFetch false and a positive targetCount, the fetch
returns at most targetCount transfers, the early exit firing as soon as the
count is reached; the bound requires targetCount to be at least one because the
exit is checked only after a transfer has been pushed. -/
theorem C10_early_exit (cfg : FetchConfig) (pages : List (List SigInfo))
    (hdf : cfg.deepFetch = false) (htc : 1 ≤ cfg.targetCount) :
    (getWalletTransactions cfg pages).length ≤ cfg.targetCount := by
  rw [getWalletTransactions, getWalletTransactionsAux]
  split_ifs with hv
  case neg =>
    simp only [List.length_nil]
    omega
  case pos =>
    exact pagesLoop_count cfg hdf pages 0 _ (by simp only [List.length_nil]; omega)

/-- C10 witness: the concrete one page configuration with targetCount 1 returns
at most one transfer. -/
theorem C10_early_exit_witness :
    c10cfg1.deepFetch = false ∧ 1 ≤ c10cfg1.targetCount ∧
    (getWalletTransactions c10cfg1 c10pages).length ≤ c10cfg1.targetCount :=
  ⟨rfl, by decide, C10_early_exit c10cfg1 c10pages rfl (by decide)⟩

/-- C10 counterexample: with targetCount 0 and deepFetch false the fetch still
returns one transfer, because the early exit is checked only after a push, so
the returned list is not bounded by targetCount when targetCount is zero. -/
theorem C10_early_exit_counterexample :
    c10cfg.deepFetch = false ∧ c10cfg.targetCount = 0 ∧
    (getWalletTransactions c10cfg c10pages).length = 1 := by
  have e1 : jsTrim wAddr = wAddr := by decide
  have e2 : jsTrim mAddr = mAddr := by decide
  have e3 : jsLower wAddr = wAddr := by decide
  have e4 : jsLower mAddr = mAddr := by decide
  have n1 : ¬ (wAddr = "") := by decide
  have n2 : ¬ (mAddr = "") := by decide
  have hp : parseTokenTransfer (mkRawTx 5 3 0) wAddr mAddr = some c10res := by
    norm_num [parseTokenTransfer, balanceScan, mkRawTx, e1, e2, e3, e4, n1, n2, scanPreStep,
      scanPostStep, initialBalScanState, balRelevant, truthyStr, jsDecimals,
      getAssoc, setAssoc, solChangeLamports, findCounterparty, c10res]
  have hp₂ : parseTokenTransfer (mkRawTx 5 3 0) c10cfg.walletAddress c10cfg.tokenMint
      = some c10res := hp
  have hgt : c10cfg.getTx "sig1" = some (mkRawTx 5 3 0) := rfl
  have hdf : c10cfg.deepFetch = false := rfl
  have htc : c10cfg.targetCount = 0 := rfl
  have hpr : processResults c10cfg
      { transactions := [], fetched := ["sig1"] }
      [{ signature := "sig1", blockTime := some 100 }] =
      ({ transactions := [mkTransfer c10cfg { signature := "sig1", blockTime := some 100 } c10res]
         fetched := ["sig1"] }, true) := by
    rw [processResults]
    dsimp only []
    rw [hgt]
    dsimp only []
    rw [hp₂]
    simp [hdf, htc]
  have hpc : processChunks c10cfg { transactions := [], fetched := [] }
      [[{ signature := "sig1", blockTime := some 100 }]] =
      ({ transactions := [mkTransfer c10cfg { signature := "sig1", blockTime := some 100 } c10res]
         fetched := ["sig1"] }, true) := by
    have hfb : filteredBatchOf c10cfg [{ signature := "sig1", blockTime := some 100 }] =
        [{ signature := "sig1", blockTime := some 100 }] := rfl
    rw [processChunks]
    dsimp only []
    rw [hfb]
    rw [if_neg (by decide)]
    simp only [List.map_cons, List.map_nil, List.nil_append]
    rw [hpr]
  refine ⟨rfl, rfl, ?_⟩
  rw [getWalletTransactions, getWalletTransactionsAux]
  rw [if_neg (by decide)]
  simp only [c10pages]
  rw [pagesLoop]
  rw [if_neg (by decide)]
  rw [if_neg (by decide)]
  dsimp only []
  have hsf : sinceFilter c10cfg [{ signature := "sig1", blockTime := some 100 }] =
      SinceCheck.keepGoing [{ signature := "sig1", blockTime := some 100 }] := rfl
  rw [hsf]
  dsimp only []
  have hch : chunksOf PARALLEL_BATCH_SIZE
      [({ signature := "sig1", blockTime := some 100 } : SigInfo)] =
      [[{ signature := "sig1", blockTime := some 100 }]] := by
    simp [chunksOf, PARALLEL_BATCH_SIZE]
  rw [hch]
  rw [hpc]
  simp
